import Mathlib

set_option maxHeartbeats 1000000
set_option maxRecDepth 8000

/-!
Shallow embedding of `Multi_Input_Excel_Engine.py`, a batch driver that, for
each row of an input spreadsheet, writes the row's values into fixed cells of a
template workbook through an external spreadsheet engine, recalculates, reads
back one result cell, saves a per-case copy, and records the results in an
output workbook.

Modelling choices:
* scalar cell values carried by records are integers (`Option Int`, `none`
  standing for an empty cell / Python `None`); output cells can also hold the
  header strings, so they use `CellVal`;
* a Python dict built by `dict(zip(headers, row))` is an association list in
  insertion order with later duplicate keys overwriting in place;
* every call into the external engine (COM) may raise; a per-case
  `CaseBehavior` oracle fixes the outcome of each external call and the value
  read back from the result cell, and the driver additionally returns the
  ordered trace of external events it performed;
* fallible Python code returns `Except Err`; `finally` semantics (an exception
  raised in `finally` replacing the pending result) is modelled explicitly.
-/

/-- Scalar values that can appear in a cell of the output workbook: header
strings or numeric parameter/result values. -/
inductive CellVal
  | str (s : String)
  | num (n : Int)
  deriving DecidableEq

/-- A parameter record: the association list built from zipping the input
sheet's header row with one data row, in insertion order (a Python dict). -/
abbrev Record := List (String × Option Int)

/-- Errors mirroring the Python exceptions that can escape each operation. -/
inductive Err
  | fileNotFound (msg : String)
  | valueError (msg : String)
  | indexError
  | keyError (k : String)
  | comError (stage : String)
  deriving DecidableEq

/-- Observable external events performed by one case of the driver, in order. -/
inductive Event
  | coInit
  | coUninit
  | dispatch (ok : Bool)
  | openDoc (path : String) (ok : Bool)
  | listNames (ok : Bool)
  | getSheet (name : String) (ok : Bool)
  | writeCell (sheet cell : String) (v : Option Int)
  | calculate (ok : Bool)
  | readCell (sheet cell : String) (v : Option Int)
  | saveAs (path : String) (ok : Bool)
  | closeDoc (saveChanges : Bool) (ok : Bool)
  | quitApp (ok : Bool)
  | killProc (name : String)
  deriving DecidableEq

/-- File path constants of the script. -/
def INPUT_FILE : String := "C:\\Users\\MOMI9362\\Input.xlsx"

/-- Path of the template workbook `Design.xlsx`. -/
def DESIGN_FILE : String := "C:\\Users\\MOMI9362\\Design.xlsx"

/-- Path of the output workbook `Output.xlsx`. -/
def OUTPUT_FILE : String := "C:\\Users\\MOMI9362\\Output.xlsx"

/-- Directory receiving the per-case artifact workbooks. -/
def DESIGN_CASES_DIR : String := "C:\\Users\\MOMI9362\\Design_Cases"

/-- The parameter-name to (sheet, cell) mapping `PARAM_MAP`, in the source's
insertion order. -/
def PARAM_MAP : List (String × String × String) :=
  [("width", "Design", "D26"), ("length", "Design", "D27"),
   ("cohesion", "Design", "D20"), ("phi", "Design", "D19"),
   ("gwt_depth", "Design", "D33"), ("burial_depth", "Design", "D28")]

/-- The (sheet, cell) pair holding the computed safe bearing capacity. -/
def SBC_CELL : String × String := ("Design", "B68")

/-- Name of the result column appended to the output header. -/
def RESULT_COL : String := "Safe_Bearing_Capacity_kN_m2"

/-- The required input fields checked by `main`'s validity filter. -/
def REQUIRED_KEYS : List String := ["width", "length", "cohesion", "phi"]

/-- Insert into a Python dict: a repeated key overwrites the stored value in
place (keeping the key's original position); a new key is appended. -/
def dictInsert (d : Record) (k : String) (v : Option Int) : Record :=
  if d.any (fun p => p.1 == k) then
    d.map (fun p => if p.1 == k then (k, v) else p)
  else d ++ [(k, v)]

/-- Build a Python dict from a list of key-value pairs, left to right. -/
def dictOfPairs (ps : List (String × Option Int)) : Record :=
  ps.foldl (fun d p => dictInsert d p.1 p.2) []

/-- The record `dict(zip(headers, row))`: `zip` truncates to the shorter list. -/
def dictZip (headers : List String) (row : List (Option Int)) : Record :=
  dictOfPairs (headers.zip row)

/-- Subscript into a record, `row[key]`: raises `KeyError` when absent. -/
def dictGet (d : Record) (k : String) : Except Err (Option Int) :=
  match d.find? (fun p => p.1 == k) with
  | some p => Except.ok p.2
  | none => Except.error (Err.keyError k)

/-- The body of `load_parameter_sets`: one record per data row, keyed by the
header row. The input workbook's content is given as the header list plus the
list of data rows. -/
def load_parameter_sets (headers : List String) (body : List (List (Option Int))) :
    List Record :=
  body.map (fun row => dictZip headers row)

/-- Python's `f"{n:03d}"` for a nonnegative integer: the decimal digits,
zero-padded on the left to width 3. -/
def pad3 (n : Nat) : String :=
  let s := toString n
  String.mk (List.replicate (3 - s.length) '0') ++ s

/-- The per-case artifact path `DESIGN_CASES_DIR / f"Design_Case_{i:03d}.xlsx"`. -/
def artifactPath (caseIdx : Nat) : String :=
  DESIGN_CASES_DIR ++ "\\Design_Case_" ++ pad3 caseIdx ++ ".xlsx"

/-- One case's oracle: the outcome of every external (COM / psutil) call the
driver makes, the value the result cell reads back as, and the process list
seen by the hygiene sweep. -/
structure CaseBehavior where
  dispatchOk : Bool
  openOk : Bool
  namesOk : Bool
  sheetOk : Bool
  writeOk : String → Bool
  calcOk : Bool
  readOk : Bool
  readVal : Option Int
  saveOk : Bool
  closeOk : Bool
  quitOk : Bool
  killRaises : Bool
  procs : List String

/-- The parameter-writing loop of `process_design_file`: for each `PARAM_MAP`
entry look the name up in the record (`KeyError` when absent) and write the
value to the mapped cell; a failing write raises. Returns the events of the
writes performed before any failure. -/
def runWrites (b : CaseBehavior) (record : Record) :
    List (String × String × String) → List Event × Except Err Unit
  | [] => ([], Except.ok ())
  | (name, sheet, cell) :: rest =>
    match dictGet record name with
    | Except.error e => ([], Except.error e)
    | Except.ok v =>
      if b.writeOk name then
        let (evs, res) := runWrites b record rest
        (Event.writeCell sheet cell v :: evs, res)
      else ([], Except.error (Err.comError ("write " ++ name)))

/-- The `try` body of `process_design_file`: dispatch the engine, open the
template, list sheet names, fetch the `Design` sheet, write all mapped
parameters, recalculate, read the result cell, save the artifact. Returns the
events performed (in order, up to the first failing call) and the body's
result. -/
def runBody (b : CaseBehavior) (record : Record) (outPath : String) :
    List Event × Except Err (Option Int) :=
  if !b.dispatchOk then
    ([Event.dispatch false], Except.error (Err.comError "dispatch"))
  else if !b.openOk then
    ([Event.dispatch true, Event.openDoc DESIGN_FILE false],
      Except.error (Err.comError "open"))
  else if !b.namesOk then
    ([Event.dispatch true, Event.openDoc DESIGN_FILE true, Event.listNames false],
      Except.error (Err.comError "names"))
  else if !b.sheetOk then
    ([Event.dispatch true, Event.openDoc DESIGN_FILE true, Event.listNames true,
       Event.getSheet "Design" false],
      Except.error (Err.comError "sheet"))
  else
    let pre := [Event.dispatch true, Event.openDoc DESIGN_FILE true,
      Event.listNames true, Event.getSheet "Design" true]
    let (wEvs, wRes) := runWrites b record PARAM_MAP
    match wRes with
    | Except.error e => (pre ++ wEvs, Except.error e)
    | Except.ok () =>
      if !b.calcOk then
        (pre ++ wEvs ++ [Event.calculate false],
          Except.error (Err.comError "calc"))
      else if !b.readOk then
        (pre ++ wEvs ++ [Event.calculate true],
          Except.error (Err.comError "read"))
      else
        let post := pre ++ wEvs ++
          [Event.calculate true, Event.readCell SBC_CELL.1 SBC_CELL.2 b.readVal]
        if !b.saveOk then
          (post ++ [Event.saveAs outPath false],
            Except.error (Err.comError "save"))
        else
          (post ++ [Event.saveAs outPath true], Except.ok b.readVal)

/-- The inner guarded cleanup of the `finally` block: close the workbook (never
saving changes) when one was opened, then quit the engine when one was started;
both calls sit in a single `try` whose handler only logs, so a raising close
skips the quit, and neither failure escapes. -/
def runCleanup (b : CaseBehavior) (excelStarted wbOpened : Bool) : List Event :=
  if wbOpened then
    if b.closeOk then
      Event.closeDoc false true :: (if excelStarted then [Event.quitApp b.quitOk] else [])
    else [Event.closeDoc false false]
  else if excelStarted then [Event.quitApp b.quitOk]
  else []

/-- Python's `str.lower`, character by character. -/
def strLower (s : String) : String :=
  String.mk (s.data.map Char.toLower)

/-- The `kill_excel_processes` sweep: terminate every process whose name is
`excel.exe` case-insensitively. The function has no handler, so a raising
enumeration or kill escapes to the caller. -/
def kill_excel_processes (procs : List String) (raises : Bool) :
    List Event × Except Err Unit :=
  if raises then ([], Except.error (Err.comError "kill"))
  else ((procs.filter (fun n => strLower n == "excel.exe")).map Event.killProc,
    Except.ok ())

/-- The whole of `process_design_file`: body, then the `finally` block (guarded
close/quit, `CoUninitialize`, hygiene sweep). An exception raised by the sweep
inside `finally` replaces the pending result, success included. On success the
function returns the value read from the result cell and the artifact path. -/
def process_design_file (b : CaseBehavior) (record : Record) (caseIdx : Nat) :
    Except Err (Option Int × String) × List Event :=
  let outPath := artifactPath caseIdx
  let (bodyEvs, bodyRes) := runBody b record outPath
  let excelStarted := b.dispatchOk
  let wbOpened := b.dispatchOk && b.openOk
  let cleanEvs := runCleanup b excelStarted wbOpened
  let (killEvs, killRes) := kill_excel_processes b.procs b.killRaises
  let evs := Event.coInit :: (bodyEvs ++ cleanEvs ++ [Event.coUninit] ++ killEvs)
  match killRes with
  | Except.error e => (Except.error e, evs)
  | Except.ok () =>
    match bodyRes with
    | Except.error e => (Except.error e, evs)
    | Except.ok v => (Except.ok (v, outPath), evs)

/-- Cells of the output worksheet: written (row, column) positions with their
values, in write order. -/
abbrev Cells := List ((Nat × Nat) × CellVal)

/-- The output workbook's single worksheet. -/
structure OutSheet where
  title : String
  cells : Cells
  deriving DecidableEq

/-- Model of `openpyxl`'s `ws.cell(row, column, value)`: passing `value=None`
leaves the cell's value unset; otherwise the cell is overwritten in place if it
was already written, else recorded. -/
def setCell (cs : Cells) (p : Nat × Nat) (v : Option CellVal) : Cells :=
  match v with
  | none => cs
  | some v =>
    if cs.any (fun q => q.1 == p) then
      cs.map (fun q => if q.1 == p then (p, v) else q)
    else cs ++ [(p, v)]

/-- The header-writing loop of `create_output_template`, placing each header
string in row 1 starting at column 1. -/
def headerCells : List String → Nat → Cells
  | [], _ => []
  | h :: t, c => ((1, c), CellVal.str h) :: headerCells t (c + 1)

/-- The body of `create_output_template`: takes the keys of the first record
(raising `IndexError` on an empty list) plus the fixed result column name, and
builds the single sheet `Results` with that header in row 1. -/
def create_output_template (rows : List Record) : Except Err OutSheet :=
  match rows with
  | [] => Except.error Err.indexError
  | r :: _ =>
    Except.ok ⟨"Results", headerCells (r.map (fun p => p.1) ++ [RESULT_COL]) 1⟩

/-- The required-field check `all(row[key] is not None for key in [...])`:
walks the keys in order, short-circuiting at the first `None` value, and
raising `KeyError` at the first absent key reached. -/
def requiredAll (r : Record) : List String → Except Err Bool
  | [] => Except.ok true
  | k :: ks =>
    match dictGet r k with
    | Except.error e => Except.error e
    | Except.ok none => Except.ok false
    | Except.ok (some _) => requiredAll r ks

/-- Validity of one record over `REQUIRED_KEYS`. -/
def rowValid (r : Record) : Except Err Bool :=
  requiredAll r REQUIRED_KEYS

/-- The filtering comprehension building `valid_rows`: any `KeyError` raised by
a record's check aborts the whole comprehension. -/
def filterValid : List Record → Except Err (List Record)
  | [] => Except.ok []
  | r :: rest =>
    match rowValid r with
    | Except.error e => Except.error e
    | Except.ok b =>
      match filterValid rest with
      | Except.error e => Except.error e
      | Except.ok vs => Except.ok (if b then r :: vs else vs)

/-- The row-writing code after a successful case: write the record's values at
columns 1.. of row `rIdx` (a `None` value leaves the cell unset), walking the
record's keys in order. -/
def writeParams (cs : Cells) (rIdx : Nat) : Record → Nat → Cells
  | [], _ => cs
  | p :: rest, cIdx =>
    writeParams (setCell cs (rIdx, cIdx) (p.2.map CellVal.num)) rIdx rest (cIdx + 1)

/-- One successful record's full output row: its field values at columns
1..len, then the result value at column len + 1. -/
def writeRecordRow (cs : Cells) (rIdx : Nat) (r : Record) (sbc : Option Int) : Cells :=
  setCell (writeParams cs rIdx r 1) (rIdx, r.length + 1) (sbc.map CellVal.num)

/-- The per-record loop of `main` over `enumerate(valid_rows, start=2)`: run
the driver with case index `rIdx - 1`; on failure log and continue, on success
write the record's row. Also collects each case's event trace. -/
def processLoop (beh : Nat → CaseBehavior) :
    List Record → Nat → Cells → Cells × List (List Event)
  | [], _, cs => (cs, [])
  | r :: rest, rIdx, cs =>
    let pr := process_design_file (beh (rIdx - 1)) r (rIdx - 1)
    match pr.1 with
    | Except.error _ =>
      let (cs2, trs) := processLoop beh rest (rIdx + 1) cs
      (cs2, pr.2 :: trs)
    | Except.ok (sbc, _) =>
      let (cs2, trs) := processLoop beh rest (rIdx + 1) (writeRecordRow cs rIdx r sbc)
      (cs2, pr.2 :: trs)

/-- The whole world one run of `main` interacts with: whether the input and
template files exist, the input workbook's header row and data rows, and the
external-engine behavior for each case index. -/
structure WorldInput where
  inputExists : Bool
  designExists : Bool
  headers : List String
  body : List (List (Option Int))
  beh : Nat → CaseBehavior

/-- Externally visible outcome of a run: whether the artifact directory was
(created or confirmed) by `mkdir`, the per-case driver traces in order, and the
output workbook as saved to `OUTPUT_FILE` (`none` when the run aborted before
the final save). -/
structure BatchEffects where
  dirCreated : Bool
  caseTraces : List (List Event)
  savedOutput : Option OutSheet
  deriving DecidableEq

/-- The `main` orchestrator: existence checks, `mkdir`, load, the emptiness
check, the validity filter, the output template, the per-record loop, and the
final unconditional save. -/
def main' (w : WorldInput) : Except Err Unit × BatchEffects :=
  if !w.inputExists then
    (Except.error (Err.fileNotFound ("Input file not found: " ++ INPUT_FILE)),
      ⟨false, [], none⟩)
  else if !w.designExists then
    (Except.error (Err.fileNotFound ("Design file not found: " ++ DESIGN_FILE)),
      ⟨false, [], none⟩)
  else
    let rows := load_parameter_sets w.headers w.body
    if rows.isEmpty then
      (Except.error (Err.valueError "No parameter sets loaded from Input.xlsx"),
        ⟨true, [], none⟩)
    else
      match filterValid rows with
      | Except.error e => (Except.error e, ⟨true, [], none⟩)
      | Except.ok valid_rows =>
        match create_output_template valid_rows with
        | Except.error e => (Except.error e, ⟨true, [], none⟩)
        | Except.ok wsOut =>
          let (cells2, traces) := processLoop w.beh valid_rows 2 wsOut.cells
          (Except.ok (), ⟨true, traces, some ⟨wsOut.title, cells2⟩⟩)

/-- The records loaded by a run of `main'` over world `w`. -/
def loadedRows (w : WorldInput) : List Record :=
  load_parameter_sets w.headers w.body

/-- Whether one driver invocation returns successfully. -/
def okCase (b : CaseBehavior) (r : Record) (i : Nat) : Bool :=
  match (process_design_file b r i).1 with
  | Except.ok _ => true
  | Except.error _ => false

/-- The result value a successful driver invocation returns (`none` also when
the invocation fails; only used under a success hypothesis). -/
def sbcOf (b : CaseBehavior) (r : Record) (i : Nat) : Option Int :=
  match (process_design_file b r i).1 with
  | Except.ok (v, _) => v
  | Except.error _ => none

/-- The output-row indices of the cases that succeed, walking the valid records
from worksheet row `rIdx` (case index `rIdx - 1`) upward. -/
def succRows (beh : Nat → CaseBehavior) : List Record → Nat → List Nat
  | [], _ => []
  | r :: rest, rIdx =>
    if okCase (beh (rIdx - 1)) r (rIdx - 1) then
      rIdx :: succRows beh rest (rIdx + 1)
    else succRows beh rest (rIdx + 1)

/-- The cells a record's row write produces: a cell per field whose value is
present, at columns counting up from `cIdx`. -/
def renderParams (rIdx : Nat) : Record → Nat → Cells
  | [], _ => []
  | (_, none) :: rest, cIdx => renderParams rIdx rest (cIdx + 1)
  | (_, some v) :: rest, cIdx =>
    ((rIdx, cIdx), CellVal.num v) :: renderParams rIdx rest (cIdx + 1)

/-- The cells one successful record contributes to its output row: its present
field values at columns 1.., then the result value (when present) at column
`r.length + 1`. -/
def renderRow (rIdx : Nat) (r : Record) (sbc : Option Int) : Cells :=
  renderParams rIdx r 1 ++
    (match sbc with
     | none => []
     | some v => [((rIdx, r.length + 1), CellVal.num v)])

/-- The cells the whole per-record loop appends beyond the initial sheet:
one `renderRow` block per successful case, in order. -/
def blocks (beh : Nat → CaseBehavior) : List Record → Nat → Cells
  | [], _ => []
  | r :: rest, rIdx =>
    match (process_design_file (beh (rIdx - 1)) r (rIdx - 1)).1 with
    | Except.error _ => blocks beh rest (rIdx + 1)
    | Except.ok (sbc, _) => renderRow rIdx r sbc ++ blocks beh rest (rIdx + 1)

/-- The event traces the loop produces: one per valid record, in order. -/
def traceList (beh : Nat → CaseBehavior) : List Record → Nat → List (List Event)
  | [], _ => []
  | r :: rest, rIdx =>
    (process_design_file (beh (rIdx - 1)) r (rIdx - 1)).2 :: traceList beh rest (rIdx + 1)

/-- First-occurrence deduplication keeping the original order, skipping
elements already seen. -/
def dedupFirst (seen : List Nat) : List Nat → List Nat
  | [] => []
  | r :: rest =>
    if r ∈ seen then dedupFirst seen rest
    else r :: dedupFirst (r :: seen) rest

/-- The data rows of a saved worksheet: the distinct row indices at least 2
holding at least one valued cell, in order of first appearance. -/
def dataRowIndices (ws : OutSheet) : List Nat :=
  dedupFirst [] ((ws.cells.map (fun c => c.1.1)).filter (fun x => decide (2 ≤ x)))

/-- All valued cells of worksheet row `rIdx`, in order. -/
def rowCells (ws : OutSheet) (rIdx : Nat) : Cells :=
  ws.cells.filter (fun c => c.1.1 == rIdx)

/-- The value stored at one (row, column) position, `none` when unset. -/
def getCell (ws : OutSheet) (p : Nat × Nat) : Option CellVal :=
  (ws.cells.find? (fun c => c.1 == p)).map (fun c => c.2)

deriving instance DecidableEq for Except

/-- A behavior in which every external call succeeds, the result cell reads
back 42, and one lingering engine process is running. -/
def okBeh : CaseBehavior :=
  ⟨true, true, true, true, fun _ => true, true, true, some 42, true, true, true,
    false, ["EXCEL.EXE", "other"]⟩

/-- A record holding every mapped parameter. -/
def recA : Record :=
  [("width", some 1), ("length", some 2), ("cohesion", some 3), ("phi", some 4),
   ("gwt_depth", some 5), ("burial_depth", some 6)]

/-- A three-row input world whose middle case's engine dispatch fails. -/
def W2 : WorldInput :=
  ⟨true, true, ["width", "length", "cohesion", "phi", "gwt_depth", "burial_depth"],
   [[some 1, some 2, some 3, some 4, some 5, some 6],
    [some 7, some 8, some 9, some 10, some 11, some 12],
    [some 13, some 14, some 15, some 16, some 17, some 18]],
   fun i => if i == 2 then
     ⟨false, true, true, true, fun _ => true, true, true, some 42, true, true, true,
       false, ["EXCEL.EXE", "other"]⟩
   else okBeh⟩

/-- The records W2 loads (all three rows are valid). -/
def W2valid : List Record :=
  [[("width", some 1), ("length", some 2), ("cohesion", some 3), ("phi", some 4),
    ("gwt_depth", some 5), ("burial_depth", some 6)],
   [("width", some 7), ("length", some 8), ("cohesion", some 9), ("phi", some 10),
    ("gwt_depth", some 11), ("burial_depth", some 12)],
   [("width", some 13), ("length", some 14), ("cohesion", some 15), ("phi", some 16),
    ("gwt_depth", some 17), ("burial_depth", some 18)]]

/-- A world with one valid and one invalid row (absent cohesion value). -/
def W3 : WorldInput :=
  ⟨true, true, ["width", "length", "cohesion", "phi", "gwt_depth", "burial_depth"],
   [[some 1, some 2, some 3, some 4, some 5, some 6],
    [some 7, some 8, none, some 10, some 11, some 12]],
   fun _ => okBeh⟩

/-- The single valid record of W3. -/
def W3valid : List Record :=
  [[("width", some 1), ("length", some 2), ("cohesion", some 3), ("phi", some 4),
    ("gwt_depth", some 5), ("burial_depth", some 6)]]

/-- A world whose only row is invalid: no record passes validation. -/
def W6 : WorldInput :=
  ⟨true, true, ["width", "length", "cohesion", "phi"],
   [[some 1, some 2, none, some 4]], fun _ => okBeh⟩

/-- A world whose every case fails at dispatch. -/
def W5 : WorldInput :=
  ⟨true, true, ["width", "length", "cohesion", "phi", "gwt_depth", "burial_depth"],
   [[some 1, some 2, some 3, some 4, some 5, some 6]],
   fun _ =>
     ⟨false, true, true, true, fun _ => true, true, true, some 42, true, true, true,
       false, []⟩⟩

/-- A world whose result cell reads back as absent. -/
def W9 : WorldInput :=
  ⟨true, true, ["width", "length", "cohesion", "phi", "gwt_depth", "burial_depth"],
   [[some 1, some 2, some 3, some 4, some 5, some 6]],
   fun _ =>
     ⟨true, true, true, true, fun _ => true, true, true, none, true, true, true,
       false, []⟩⟩

/-- A world whose input omits the cohesion column, with the first row's width
also absent, so the short-circuiting check drops the row without raising. -/
def W10 : WorldInput :=
  ⟨true, true, ["width", "length", "phi"], [[none, some 1, some 2]], fun _ => okBeh⟩

/-- A world whose input omits the cohesion column while the first row's earlier
required fields are present, so the lookup raises. -/
def W10b : WorldInput :=
  ⟨true, true, ["width", "length", "phi"], [[some 1, some 2, some 3]], fun _ => okBeh⟩

/-- Every cell produced by `renderParams` lies in row `R`, in a column between
`cIdx` and `cIdx + ps.length` (exclusive). -/
theorem renderParams_shape (R : Nat) :
    ∀ (ps : Record) (cIdx : Nat), ∀ c ∈ renderParams R ps cIdx,
      c.1.1 = R ∧ cIdx ≤ c.1.2 ∧ c.1.2 < cIdx + ps.length := by
  intro ps
  induction ps with
  | nil => intro cIdx c hc; simp [renderParams] at hc
  | cons p rest ih =>
    intro cIdx c hc
    match p with
    | (k, none) =>
      simp only [renderParams] at hc
      rcases ih (cIdx + 1) c hc with ⟨h1, h2, h3⟩
      refine ⟨h1, by omega, ?_⟩
      simp only [List.length_cons]
      omega
    | (k, some v) =>
      simp only [renderParams, List.mem_cons] at hc
      rcases hc with rfl | hc
      · refine ⟨rfl, Nat.le_refl _, ?_⟩
        simp only [List.length_cons]
        omega
      · rcases ih (cIdx + 1) c hc with ⟨h1, h2, h3⟩
        refine ⟨h1, by omega, ?_⟩
        simp only [List.length_cons]
        omega

/-- Every cell of a rendered row lies in row `R`, with column at most
`r.length + 1`. -/
theorem renderRow_shape (R : Nat) (r : Record) (sbc : Option Int) :
    ∀ c ∈ renderRow R r sbc, c.1.1 = R ∧ 1 ≤ c.1.2 ∧ c.1.2 ≤ r.length + 1 := by
  intro c hc
  simp only [renderRow, List.mem_append] at hc
  rcases hc with hc | hc
  · rcases renderParams_shape R r 1 c hc with ⟨h1, h2, h3⟩
    exact ⟨h1, h2, by omega⟩
  · match sbc with
    | none => simp at hc
    | some v =>
      simp only [List.mem_singleton] at hc
      rw [hc]
      refine ⟨rfl, ?_, ?_⟩
      · show 1 ≤ r.length + 1
        omega
      · show r.length + 1 ≤ r.length + 1
        omega

/-- Setting a position absent from the sheet appends the cell. -/
theorem setCell_append (cs : Cells) (p : Nat × Nat) (v : CellVal)
    (h : ∀ c ∈ cs, c.1 ≠ p) : setCell cs p (some v) = cs ++ [(p, v)] := by
  simp only [setCell]
  rw [if_neg]
  simp only [List.any_eq_true, beq_iff_eq, not_exists]
  intro c
  intro hc
  rcases hc with ⟨hmem, heq⟩
  exact h c hmem heq

/-- The parameter-writing loop only appends fresh cells: when every existing
cell is off row `rIdx` or in a column before `cIdx`, it appends exactly the
rendered cells. -/
theorem writeParams_append :
    ∀ (ps : Record) (cs : Cells) (rIdx cIdx : Nat),
      (∀ c ∈ cs, c.1.1 ≠ rIdx ∨ c.1.2 < cIdx) →
      writeParams cs rIdx ps cIdx = cs ++ renderParams rIdx ps cIdx := by
  intro ps
  induction ps with
  | nil => intro cs rIdx cIdx h; simp [writeParams, renderParams]
  | cons p rest ih =>
    intro cs rIdx cIdx h
    match p with
    | (k, none) =>
      simp only [writeParams, renderParams, Option.map_none', setCell]
      exact ih cs rIdx (cIdx + 1) (fun c hc => by rcases h c hc with h1 | h1 <;> [left; right] <;> omega)
    | (k, some v) =>
      simp only [writeParams, renderParams, Option.map_some']
      rw [setCell_append cs (rIdx, cIdx) (CellVal.num v)
        (fun c hc => by
          rcases h c hc with h1 | h1 <;> intro he <;> rw [he] at h1
          · simp at h1
          · exact absurd h1 (by simp))]
      rw [ih (cs ++ [((rIdx, cIdx), CellVal.num v)]) rIdx (cIdx + 1)
        (fun c hc => by
          rcases List.mem_append.1 hc with h1 | h1
          · rcases h c h1 with h2 | h2 <;> [left; right] <;> omega
          · simp only [List.mem_singleton] at h1
            right
            rw [h1]
            show cIdx < cIdx + 1
            omega)]
      simp

/-- Writing one record's full row onto a sheet whose cells all sit in other
rows appends exactly the rendered row. -/
theorem writeRecordRow_append (cs : Cells) (rIdx : Nat) (r : Record) (sbc : Option Int)
    (h : ∀ c ∈ cs, c.1.1 ≠ rIdx) :
    writeRecordRow cs rIdx r sbc = cs ++ renderRow rIdx r sbc := by
  simp only [writeRecordRow]
  rw [writeParams_append r cs rIdx 1 (fun c hc => Or.inl (h c hc))]
  match sbc with
  | none => simp [setCell, renderRow]
  | some v =>
    simp only [Option.map_some']
    rw [setCell_append _ _ _ (fun c hc => by
      rcases List.mem_append.1 hc with h1 | h1
      · intro he; exact h c h1 (by rw [he])
      · rcases renderParams_shape rIdx r 1 c h1 with ⟨_, _, h3⟩
        intro he; rw [he] at h3; simp at h3; omega)]
    simp [renderRow]

/-- The per-record loop appends exactly one rendered block per successful case
after any sheet whose cells all sit above row `rIdx`, and returns the traces of
all driver invocations. -/
theorem processLoop_spec (beh : Nat → CaseBehavior) :
    ∀ (rs : List Record) (rIdx : Nat) (cs : Cells),
      (∀ c ∈ cs, c.1.1 < rIdx) →
      processLoop beh rs rIdx cs = (cs ++ blocks beh rs rIdx, traceList beh rs rIdx) := by
  intro rs
  induction rs with
  | nil => intro rIdx cs h; simp [processLoop, blocks, traceList]
  | cons r rest ih =>
    intro rIdx cs h
    simp only [processLoop, blocks, traceList]
    cases hpr : (process_design_file (beh (rIdx - 1)) r (rIdx - 1)).1 with
    | error e =>
      dsimp only
      rw [ih (rIdx + 1) cs (fun c hc => by have := h c hc; omega)]
    | ok val =>
      rcases val with ⟨sbc, path⟩
      dsimp only
      rw [writeRecordRow_append cs rIdx r sbc (fun c hc => by have := h c hc; omega)]
      rw [ih (rIdx + 1) (cs ++ renderRow rIdx r sbc) (fun c hc => by
        rcases List.mem_append.1 hc with h1 | h1
        · have := h c h1; omega
        · have := (renderRow_shape rIdx r sbc c h1).1; omega)]
      simp [List.append_assoc]

/-- Every cell the loop appends lies in a row between `rIdx` and
`rIdx + rs.length` (exclusive). -/
theorem blocks_shape (beh : Nat → CaseBehavior) :
    ∀ (rs : List Record) (rIdx : Nat), ∀ c ∈ blocks beh rs rIdx,
      rIdx ≤ c.1.1 ∧ c.1.1 < rIdx + rs.length := by
  intro rs
  induction rs with
  | nil => intro rIdx c hc; simp [blocks] at hc
  | cons r rest ih =>
    intro rIdx c
    simp only [blocks]
    cases hpr : (process_design_file (beh (rIdx - 1)) r (rIdx - 1)).1 with
    | error e =>
      intro hc
      have := ih (rIdx + 1) c hc
      simp only [List.length_cons]
      omega
    | ok val =>
      rcases val with ⟨sbc, path⟩
      intro hc
      rcases List.mem_append.1 hc with h1 | h1
      · have := (renderRow_shape rIdx r sbc c h1).1
        simp only [List.length_cons]
        omega
      · have := ih (rIdx + 1) c h1
        simp only [List.length_cons]
        omega

/-- Every header cell sits in row 1. -/
theorem headerCells_row1 :
    ∀ (hs : List String) (cIdx : Nat), ∀ c ∈ headerCells hs cIdx, c.1.1 = 1 := by
  intro hs
  induction hs with
  | nil => intro cIdx c hc; simp [headerCells] at hc
  | cons h t ih =>
    intro cIdx c hc
    rcases List.mem_cons.1 hc with rfl | hc
    · rfl
    · exact ih (cIdx + 1) c hc

/-- Deduplication drops a leading run of an already-seen value. -/
theorem dedupFirst_seen (v : Nat) :
    ∀ (l t seen : List Nat), (∀ x ∈ l, x = v) → v ∈ seen →
      dedupFirst seen (l ++ t) = dedupFirst seen t := by
  intro l
  induction l with
  | nil => intro t seen _ _; simp
  | cons x xs ih =>
    intro t seen hall hv
    have hx : x = v := hall x (List.mem_cons_self x xs)
    simp only [List.cons_append, dedupFirst]
    rw [if_pos (hx ▸ hv)]
    exact ih t seen (fun y hy => hall y (List.mem_cons_of_mem x hy)) hv

/-- A record passing the required-field check stores at least one present
value (its `width`). -/
theorem valid_has_some {r : Record} (h : rowValid r = Except.ok true) :
    ∃ p ∈ r, p.2.isSome = true := by
  cases hf : r.find? (fun p => p.1 == "width") with
  | none =>
    exfalso
    simp [rowValid, REQUIRED_KEYS, requiredAll, dictGet, hf] at h
  | some p =>
    cases hv : p.2 with
    | none =>
      exfalso
      simp [rowValid, REQUIRED_KEYS, requiredAll, dictGet, hf, hv] at h
    | some v =>
      exact ⟨p, List.mem_of_find?_eq_some hf, by simp [hv]⟩

/-- A record with a present value renders at least one cell. -/
theorem renderParams_ne_nil (R : Nat) :
    ∀ (ps : Record) (cIdx : Nat), (∃ p ∈ ps, p.2.isSome = true) →
      renderParams R ps cIdx ≠ [] := by
  intro ps
  induction ps with
  | nil =>
    intro cIdx h
    rcases h with ⟨p, hp, _⟩
    simp at hp
  | cons p rest ih =>
    intro cIdx h
    obtain ⟨k, vo⟩ := p
    cases vo with
    | none =>
      simp only [renderParams]
      rcases h with ⟨q, hq, hqs⟩
      rcases List.mem_cons.1 hq with rfl | hq
      · simp at hqs
      · exact ih (cIdx + 1) ⟨q, hq, hqs⟩
    | some v => simp [renderParams]

/-- A valid record's rendered row is nonempty. -/
theorem renderRow_ne_nil (R : Nat) (r : Record) (sbc : Option Int)
    (h : rowValid r = Except.ok true) : renderRow R r sbc ≠ [] := by
  intro hnil
  exact renderParams_ne_nil R r 1 (valid_has_some h) (List.append_eq_nil.1 hnil).1

/-- The distinct rows of the appended blocks, in order, are exactly the rows of
the successful cases. -/
theorem blocks_dataRows (beh : Nat → CaseBehavior) :
    ∀ (rs : List Record) (rIdx : Nat) (seen : List Nat),
      (∀ r ∈ rs, rowValid r = Except.ok true) →
      (∀ s ∈ seen, s < rIdx) →
      dedupFirst seen ((blocks beh rs rIdx).map (fun c => c.1.1)) =
        succRows beh rs rIdx := by
  intro rs
  induction rs with
  | nil => intro rIdx seen _ _; simp [blocks, succRows, dedupFirst]
  | cons r rest ih =>
    intro rIdx seen hvalid hseen
    cases hpr : (process_design_file (beh (rIdx - 1)) r (rIdx - 1)).1 with
    | error e =>
      simp only [blocks, succRows, okCase, hpr]
      exact ih (rIdx + 1) seen
        (fun q hq => hvalid q (List.mem_cons_of_mem r hq))
        (fun s hs => by have := hseen s hs; omega)
    | ok val =>
      rcases val with ⟨sbc, path⟩
      simp only [blocks, succRows, okCase, hpr, if_pos]
      have hne := renderRow_ne_nil rIdx r sbc (hvalid r (List.mem_cons_self r rest))
      obtain ⟨c0, crest, hrr⟩ : ∃ c0 crest, renderRow rIdx r sbc = c0 :: crest := by
        cases hrw : renderRow rIdx r sbc with
        | nil => exact absurd hrw hne
        | cons a b => exact ⟨a, b, rfl⟩
      rw [hrr]
      have hc0 : c0.1.1 = rIdx :=
        (renderRow_shape rIdx r sbc c0 (hrr ▸ List.mem_cons_self c0 crest)).1
      simp only [List.cons_append, List.append_eq, List.map_append, List.map_cons,
        dedupFirst, hc0]
      rw [if_neg (fun hmem => absurd (hseen rIdx hmem) (lt_irrefl rIdx))]
      congr 1
      rw [dedupFirst_seen rIdx (crest.map fun c => c.1.1) _ _
        (fun x hx => by
          rcases List.mem_map.1 hx with ⟨c, hc, rfl⟩
          exact (renderRow_shape rIdx r sbc c (hrr ▸ List.mem_cons_of_mem c0 hc)).1)
        (List.mem_cons_self rIdx seen)]
      exact ih (rIdx + 1) (rIdx :: seen)
        (fun q hq => hvalid q (List.mem_cons_of_mem r hq))
        (fun s hs => by
          rcases List.mem_cons.1 hs with rfl | hs
          · omega
          · have := hseen s hs; omega)

/-- Rows at least 2 are kept by the data-row filter on appended blocks. -/
theorem blocks_map_filter (beh : Nat → CaseBehavior) (rs : List Record) (rIdx : Nat)
    (h2 : 2 ≤ rIdx) :
    ((blocks beh rs rIdx).map (fun c => c.1.1)).filter (fun x => decide (2 ≤ x)) =
      (blocks beh rs rIdx).map (fun c => c.1.1) := by
  apply List.filter_eq_self.2
  intro a ha
  rcases List.mem_map.1 ha with ⟨c, hc, rfl⟩
  have := (blocks_shape beh rs rIdx c hc).1
  simp only [decide_eq_true_eq]
  omega

/-- Header cells are dropped by the data-row filter. -/
theorem headerCells_map_filter (hs : List String) (cIdx : Nat) :
    ((headerCells hs cIdx).map (fun c => c.1.1)).filter (fun x => decide (2 ≤ x)) = [] := by
  apply List.filter_eq_nil_iff.2
  intro a ha
  rcases List.mem_map.1 ha with ⟨c, hc, rfl⟩
  rw [headerCells_row1 hs cIdx c hc]
  simp

/-- The data rows of the saved sheet are exactly the successful cases' rows. -/
theorem dataRows_of_run (beh : Nat → CaseBehavior) (vr : List Record) (hs : List String)
    (hvalid : ∀ r ∈ vr, rowValid r = Except.ok true) :
    dataRowIndices ⟨"Results", headerCells hs 1 ++ blocks beh vr 2⟩ =
      succRows beh vr 2 := by
  simp only [dataRowIndices, List.map_append, List.filter_append,
    headerCells_map_filter, blocks_map_filter beh vr 2 (Nat.le_refl 2), List.nil_append]
  exact blocks_dataRows beh vr 2 [] hvalid (fun s hmem => by simp at hmem)

/-- A rendered row survives filtering by its own row index. -/
theorem renderRow_filter_self (R : Nat) (r : Record) (sbc : Option Int) :
    (renderRow R r sbc).filter (fun c => c.1.1 == R) = renderRow R r sbc :=
  List.filter_eq_self.2 (fun c hc => by
    rw [(renderRow_shape R r sbc c hc).1]
    simp)

/-- Blocks contribute nothing to rows outside their range. -/
theorem blocks_filter_other (beh : Nat → CaseBehavior) (rs : List Record) (rIdx R : Nat)
    (h : R < rIdx ∨ rIdx + rs.length ≤ R) :
    (blocks beh rs rIdx).filter (fun c => c.1.1 == R) = [] := by
  apply List.filter_eq_nil_iff.2
  intro c hc
  have := blocks_shape beh rs rIdx c hc
  simp only [beq_iff_eq]
  omega

/-- The cells of the row assigned to the `j`-th processed record are its
rendered row when its case succeeded, and nothing when it failed. -/
theorem blocks_filter_at (beh : Nat → CaseBehavior) :
    ∀ (rs : List Record) (j rIdx : Nat) (r : Record), rs[j]? = some r →
      (blocks beh rs rIdx).filter (fun c => c.1.1 == rIdx + j) =
        (match (process_design_file (beh (rIdx + j - 1)) r (rIdx + j - 1)).1 with
         | Except.ok (sbc, _) => renderRow (rIdx + j) r sbc
         | Except.error _ => []) := by
  intro rs
  induction rs with
  | nil => intro j rIdx r h; simp at h
  | cons q rest ih =>
    intro j rIdx r h
    cases j with
    | zero =>
      simp only [List.getElem?_cons_zero, Option.some_inj] at h
      subst h
      simp only [Nat.add_zero]
      cases hpr : (process_design_file (beh (rIdx - 1)) q (rIdx - 1)).1 with
      | error e =>
        simp only [blocks, hpr]
        exact blocks_filter_other beh rest (rIdx + 1) rIdx (Or.inl (by omega))
      | ok val =>
        rcases val with ⟨sbc, path⟩
        simp only [blocks, hpr, List.filter_append]
        rw [renderRow_filter_self,
          blocks_filter_other beh rest (rIdx + 1) rIdx (Or.inl (by omega))]
        simp
    | succ j =>
      simp only [List.getElem?_cons_succ] at h
      cases hpr : (process_design_file (beh (rIdx - 1)) q (rIdx - 1)).1 with
      | error e =>
        simp only [blocks, hpr]
        have hrec := ih j (rIdx + 1) r h
        have harith : rIdx + 1 + j = rIdx + (j + 1) := by omega
        rw [harith] at hrec
        exact hrec
      | ok val =>
        rcases val with ⟨sbc, path⟩
        simp only [blocks, hpr, List.filter_append]
        have hq : (renderRow rIdx q sbc).filter (fun c => c.1.1 == rIdx + (j + 1)) = [] := by
          apply List.filter_eq_nil_iff.2
          intro c hc
          have := (renderRow_shape rIdx q sbc c hc).1
          simp only [beq_iff_eq]
          omega
        rw [hq]
        have hrec := ih j (rIdx + 1) r h
        have harith : rIdx + 1 + j = rIdx + (j + 1) := by omega
        rw [harith] at hrec
        rw [hrec]
        simp

/-- Header cells are the whole of row 1 of the saved sheet. -/
theorem rowCells_header (beh : Nat → CaseBehavior) (vr : List Record) (hs : List String) :
    rowCells ⟨"Results", headerCells hs 1 ++ blocks beh vr 2⟩ 1 = headerCells hs 1 := by
  simp only [rowCells, List.filter_append]
  rw [List.filter_eq_self.2 (fun c hc => by rw [headerCells_row1 hs 1 c hc]; simp),
    blocks_filter_other beh vr 2 1 (Or.inl (by omega))]
  simp

/-- The saved sheet's row `j + 2` holds exactly the `j`-th valid record's
rendered row on success and nothing on failure. -/
theorem rowCells_of_run (beh : Nat → CaseBehavior) (vr : List Record) (hs : List String)
    (j : Nat) (r : Record) (hj : vr[j]? = some r) :
    rowCells ⟨"Results", headerCells hs 1 ++ blocks beh vr 2⟩ (j + 2) =
      (match (process_design_file (beh (j + 1)) r (j + 1)).1 with
       | Except.ok (sbc, _) => renderRow (j + 2) r sbc
       | Except.error _ => []) := by
  simp only [rowCells, List.filter_append]
  have hh : (headerCells hs 1).filter (fun c => c.1.1 == j + 2) = [] := by
    apply List.filter_eq_nil_iff.2
    intro c hc
    simp only [headerCells_row1 hs 1 c hc, beq_iff_eq]
    omega
  rw [hh]
  have hrec := blocks_filter_at beh vr j 2 r hj
  have h1 : 2 + j = j + 2 := by omega
  rw [h1] at hrec
  rw [show j + 2 - 1 = j + 1 by omega] at hrec
  rw [hrec]
  simp

/-- There are never more successful rows than processed records. -/
theorem succRows_length_le (beh : Nat → CaseBehavior) :
    ∀ (rs : List Record) (rIdx : Nat), (succRows beh rs rIdx).length ≤ rs.length := by
  intro rs
  induction rs with
  | nil => intro rIdx; simp [succRows]
  | cons r rest ih =>
    intro rIdx
    simp only [succRows]
    by_cases h : okCase (beh (rIdx - 1)) r (rIdx - 1) = true
    · rw [if_pos h]
      simp only [List.length_cons]
      exact Nat.succ_le_succ (ih (rIdx + 1))
    · rw [if_neg h]
      simp only [List.length_cons]
      have := ih (rIdx + 1)
      omega

/-- When every case succeeds, the successful rows are all of them. -/
theorem succRows_all_ok (beh : Nat → CaseBehavior) :
    ∀ (rs : List Record) (rIdx : Nat),
      (∀ j r, rs[j]? = some r → okCase (beh (rIdx + j - 1)) r (rIdx + j - 1) = true) →
      succRows beh rs rIdx = List.range' rIdx rs.length := by
  intro rs
  induction rs with
  | nil => intro rIdx h; simp [succRows]
  | cons r rest ih =>
    intro rIdx h
    have h0 := h 0 r (by simp)
    rw [Nat.add_zero] at h0
    simp only [succRows, h0, if_true, List.length_cons, List.range'_succ]
    congr 1
    apply ih (rIdx + 1)
    intro j r' hj
    have := h (j + 1) r' (by simpa using hj)
    have harith : rIdx + (j + 1) - 1 = rIdx + 1 + j - 1 := by omega
    rwa [harith] at this

/-- The loop produces one trace per record. -/
theorem traceList_length (beh : Nat → CaseBehavior) :
    ∀ (rs : List Record) (rIdx : Nat), (traceList beh rs rIdx).length = rs.length := by
  intro rs
  induction rs with
  | nil => intro rIdx; simp [traceList]
  | cons r rest ih => intro rIdx; simp [traceList, ih (rIdx + 1)]

/-- The `j`-th trace is the driver's trace on the `j`-th record with case index
`rIdx + j - 1`. -/
theorem traceList_get (beh : Nat → CaseBehavior) :
    ∀ (rs : List Record) (j rIdx : Nat) (r : Record), rs[j]? = some r →
      (traceList beh rs rIdx)[j]? =
        some (process_design_file (beh (rIdx + j - 1)) r (rIdx + j - 1)).2 := by
  intro rs
  induction rs with
  | nil => intro j rIdx r h; simp at h
  | cons q rest ih =>
    intro j rIdx r h
    cases j with
    | zero =>
      simp only [List.getElem?_cons_zero, Option.some_inj] at h
      subst h
      simp [traceList]
    | succ j =>
      simp only [List.getElem?_cons_succ] at h
      have hrec := ih j (rIdx + 1) r h
      have harith : rIdx + 1 + j - 1 = rIdx + (j + 1) - 1 := by omega
      rw [harith] at hrec
      simpa [traceList] using hrec

/-- Every record kept by the validity filter passes the required-field check. -/
theorem filterValid_mem : ∀ (rs vr : List Record), filterValid rs = Except.ok vr →
    ∀ r ∈ vr, rowValid r = Except.ok true := by
  intro rs
  induction rs with
  | nil =>
    intro vr h r hr
    simp only [filterValid, Except.ok.injEq] at h
    subst h
    simp at hr
  | cons q rest ih =>
    intro vr h r hr
    cases hq : rowValid q with
    | error e => simp [filterValid, hq] at h
    | ok b =>
      cases hrest : filterValid rest with
      | error e => simp [filterValid, hq, hrest] at h
      | ok vs =>
        simp only [filterValid, hq, hrest, Except.ok.injEq] at h
        subst h
        cases b with
        | true =>
          rcases List.mem_cons.1 (by simpa using hr) with rfl | hr2
          · exact hq
          · exact ih vs hrest r hr2
        | false => exact ih vs hrest r (by simpa using hr)

/-- A run whose fatal-error guards all pass: `main'` succeeds, records one
driver trace per valid record, and saves the sheet holding the header row plus
one rendered block per successful case. -/
theorem main'_run (w : WorldInput) (r0 : Record) (rest : List Record)
    (h1 : w.inputExists = true) (h2 : w.designExists = true)
    (hne : loadedRows w ≠ [])
    (hv : filterValid (loadedRows w) = Except.ok (r0 :: rest)) :
    main' w = (Except.ok (), ⟨true, traceList w.beh (r0 :: rest) 2,
      some ⟨"Results",
        headerCells (r0.map (fun p => p.1) ++ [RESULT_COL]) 1 ++
          blocks w.beh (r0 :: rest) 2⟩⟩) := by
  unfold loadedRows at hne hv
  rcases hl : load_parameter_sets w.headers w.body with _ | ⟨x, xs⟩
  · exact absurd hl hne
  · rw [hl] at hv
    simp only [main', h1, h2, Bool.not_true, Bool.false_eq_true, if_false, hl,
      List.isEmpty_cons, hv, create_output_template]
    rw [processLoop_spec w.beh (r0 :: rest) 2 _ (fun c hc => by
      rw [headerCells_row1 _ 1 c hc]
      omega)]

/-- A successful run passed every fatal-error guard: both files exist, the
input held at least one row, and the validity filter returned without raising
and kept at least one record. -/
theorem main'_ok_inv (w : WorldInput) (h : (main' w).1 = Except.ok ()) :
    w.inputExists = true ∧ w.designExists = true ∧ loadedRows w ≠ [] ∧
      ∃ r0 rest, filterValid (loadedRows w) = Except.ok (r0 :: rest) := by
  cases hw1 : w.inputExists with
  | false => exfalso; simp [main', hw1] at h
  | true =>
    cases hw2 : w.designExists with
    | false => exfalso; simp [main', hw1, hw2] at h
    | true =>
      rcases hl : load_parameter_sets w.headers w.body with _ | ⟨x, xs⟩
      · exfalso; simp [main', hw1, hw2, hl] at h
      · cases hv : filterValid (x :: xs) with
        | error e => exfalso; simp [main', hw1, hw2, hl, hv] at h
        | ok vr =>
          cases vr with
          | nil =>
            exfalso
            simp [main', hw1, hw2, hl, hv, create_output_template] at h
          | cons r0 rest =>
            refine ⟨rfl, rfl, ?_, r0, rest, ?_⟩
            · unfold loadedRows; rw [hl]; simp
            · unfold loadedRows; rw [hl]; exact hv

/-- A fatal error leaves no saved output and no driver invocation behind. -/
theorem main'_fatal_no_output (w : WorldInput) (e : Err)
    (h : (main' w).1 = Except.error e) :
    (main' w).2.savedOutput = none ∧ (main' w).2.caseTraces = [] := by
  cases hw1 : w.inputExists with
  | false => simp [main', hw1]
  | true =>
    cases hw2 : w.designExists with
    | false => simp [main', hw1, hw2]
    | true =>
      rcases hl : load_parameter_sets w.headers w.body with _ | ⟨x, xs⟩
      · simp [main', hw1, hw2, hl]
      · cases hv : filterValid (x :: xs) with
        | error e2 => simp [main', hw1, hw2, hl, hv]
        | ok vr =>
          cases vr with
          | nil => simp [main', hw1, hw2, hl, hv, create_output_template]
          | cons r0 rest =>
            exfalso
            simp [main', hw1, hw2, hl, hv, create_output_template] at h

/-- The write loop emits cell-write events only. -/
theorem runWrites_events (b : CaseBehavior) (record : Record) :
    ∀ pm, ∀ e ∈ (runWrites b record pm).1, ∃ s c v, e = Event.writeCell s c v := by
  intro pm
  induction pm with
  | nil => intro e he; simp [runWrites] at he
  | cons entry rest ih =>
    intro e he
    obtain ⟨name, sheet, cell⟩ := entry
    rcases hrw : runWrites b record rest with ⟨evs, res⟩
    cases hg : dictGet record name with
    | error err => simp [runWrites, hg] at he
    | ok v =>
      cases hw : b.writeOk name with
      | false => simp [runWrites, hg, hw] at he
      | true =>
        simp only [runWrites, hg, hw, if_true, hrw] at he
        rcases List.mem_cons.1 he with rfl | he2
        · exact ⟨sheet, cell, v, rfl⟩
        · exact ih e (by rw [hrw]; exact he2)

/-- The body emits only engine events, and its save events all target `o`. -/
theorem runBody_event_cases (b : CaseBehavior) (record : Record) (o : String) :
    ∀ e ∈ (runBody b record o).1,
      (∃ ok, e = Event.dispatch ok) ∨ (∃ ok, e = Event.openDoc DESIGN_FILE ok) ∨
      (∃ ok, e = Event.listNames ok) ∨ (∃ ok, e = Event.getSheet "Design" ok) ∨
      (∃ s c v, e = Event.writeCell s c v) ∨ (∃ ok, e = Event.calculate ok) ∨
      (∃ s c v, e = Event.readCell s c v) ∨ (∃ ok, e = Event.saveAs o ok) := by
  intro e
  rcases hrw : runWrites b record PARAM_MAP with ⟨wEvs, wRes⟩
  have hw : ∀ e2 ∈ wEvs, ∃ s c v, e2 = Event.writeCell s c v := by
    intro e2 he2
    exact runWrites_events b record PARAM_MAP e2 (by rw [hrw]; exact he2)
  cases h1 : b.dispatchOk with
  | false =>
    intro he
    simp only [runBody, h1, Bool.not_false, if_true, List.mem_singleton] at he
    exact Or.inl ⟨false, he⟩
  | true =>
    cases h2 : b.openOk with
    | false =>
      intro he
      simp only [runBody, h1, h2, Bool.not_false, Bool.not_true, Bool.false_eq_true,
        if_false, if_true, List.mem_cons, List.mem_singleton, List.not_mem_nil,
        or_false] at he
      rcases he with rfl | rfl
      · exact Or.inl ⟨true, rfl⟩
      · exact Or.inr (Or.inl ⟨false, rfl⟩)
    | true =>
      cases h3 : b.namesOk with
      | false =>
        intro he
        simp only [runBody, h1, h2, h3, Bool.not_false, Bool.not_true, Bool.false_eq_true,
          if_false, if_true, List.mem_cons, List.mem_singleton, List.not_mem_nil,
          or_false] at he
        rcases he with rfl | rfl | rfl
        · exact Or.inl ⟨true, rfl⟩
        · exact Or.inr (Or.inl ⟨true, rfl⟩)
        · exact Or.inr (Or.inr (Or.inl ⟨false, rfl⟩))
      | true =>
        cases h4 : b.sheetOk with
        | false =>
          intro he
          simp only [runBody, h1, h2, h3, h4, Bool.not_false, Bool.not_true,
            Bool.false_eq_true, if_false, if_true, List.mem_cons, List.mem_singleton,
            List.not_mem_nil, or_false] at he
          rcases he with rfl | rfl | rfl | rfl
          · exact Or.inl ⟨true, rfl⟩
          · exact Or.inr (Or.inl ⟨true, rfl⟩)
          · exact Or.inr (Or.inr (Or.inl ⟨true, rfl⟩))
          · exact Or.inr (Or.inr (Or.inr (Or.inl ⟨false, rfl⟩)))
        | true =>
          intro he
          simp only [runBody, h1, h2, h3, h4, Bool.not_true, Bool.false_eq_true,
            if_false, hrw] at he
          have hpre : ∀ x : Event,
              x = Event.dispatch true ∨ x = Event.openDoc DESIGN_FILE true ∨
                x = Event.listNames true ∨ x = Event.getSheet "Design" true →
              (∃ ok, x = Event.dispatch ok) ∨ (∃ ok, x = Event.openDoc DESIGN_FILE ok) ∨
              (∃ ok, x = Event.listNames ok) ∨ (∃ ok, x = Event.getSheet "Design" ok) := by
            intro x hx
            rcases hx with rfl | rfl | rfl | rfl
            · exact Or.inl ⟨true, rfl⟩
            · exact Or.inr (Or.inl ⟨true, rfl⟩)
            · exact Or.inr (Or.inr (Or.inl ⟨true, rfl⟩))
            · exact Or.inr (Or.inr (Or.inr ⟨true, rfl⟩))
          cases wRes with
          | error e2 =>
            rcases List.mem_append.1 he with hp | hm
            · rcases hpre e (by simpa using hp) with h | h | h | h
              · exact Or.inl h
              · exact Or.inr (Or.inl h)
              · exact Or.inr (Or.inr (Or.inl h))
              · exact Or.inr (Or.inr (Or.inr (Or.inl h)))
            · exact Or.inr (Or.inr (Or.inr (Or.inr (Or.inl (hw e hm)))))
          | ok u =>
            cases u
            cases h5 : b.calcOk with
            | false =>
              simp only [h5, Bool.not_false, if_true] at he
              rcases List.mem_append.1 he with hpm | hc
              · rcases List.mem_append.1 hpm with hp | hm
                · rcases hpre e (by simpa using hp) with h | h | h | h
                  · exact Or.inl h
                  · exact Or.inr (Or.inl h)
                  · exact Or.inr (Or.inr (Or.inl h))
                  · exact Or.inr (Or.inr (Or.inr (Or.inl h)))
                · exact Or.inr (Or.inr (Or.inr (Or.inr (Or.inl (hw e hm)))))
              · simp only [List.mem_singleton] at hc
                exact Or.inr (Or.inr (Or.inr (Or.inr (Or.inr (Or.inl ⟨false, hc⟩)))))
            | true =>
              cases h6 : b.readOk with
              | false =>
                simp only [h5, h6, Bool.not_true, Bool.not_false, Bool.false_eq_true,
                  if_false, if_true] at he
                rcases List.mem_append.1 he with hpm | hc
                · rcases List.mem_append.1 hpm with hp | hm
                  · rcases hpre e (by simpa using hp) with h | h | h | h
                    · exact Or.inl h
                    · exact Or.inr (Or.inl h)
                    · exact Or.inr (Or.inr (Or.inl h))
                    · exact Or.inr (Or.inr (Or.inr (Or.inl h)))
                  · exact Or.inr (Or.inr (Or.inr (Or.inr (Or.inl (hw e hm)))))
                · simp only [List.mem_singleton] at hc
                  exact Or.inr (Or.inr (Or.inr (Or.inr (Or.inr (Or.inl ⟨true, hc⟩)))))
              | true =>
                cases h7 : b.saveOk with
                | false =>
                  simp only [h5, h6, h7, Bool.not_true, Bool.not_false,
                    Bool.false_eq_true, if_false, if_true, List.mem_append,
                    List.mem_cons, List.mem_singleton, List.not_mem_nil, or_false] at he
                  rcases he with ((hp | hm) | (rfl | rfl)) | rfl
                  · rcases hpre e (by simpa using hp) with h | h | h | h
                    · exact Or.inl h
                    · exact Or.inr (Or.inl h)
                    · exact Or.inr (Or.inr (Or.inl h))
                    · exact Or.inr (Or.inr (Or.inr (Or.inl h)))
                  · exact Or.inr (Or.inr (Or.inr (Or.inr (Or.inl (hw e hm)))))
                  · exact Or.inr (Or.inr (Or.inr (Or.inr (Or.inr (Or.inl ⟨true, rfl⟩)))))
                  · exact Or.inr (Or.inr (Or.inr (Or.inr (Or.inr (Or.inr (Or.inl
                      ⟨SBC_CELL.1, SBC_CELL.2, b.readVal, rfl⟩))))))
                  · exact Or.inr (Or.inr (Or.inr (Or.inr (Or.inr (Or.inr (Or.inr
                      ⟨false, rfl⟩))))))
                | true =>
                  simp only [h5, h6, h7, Bool.not_true, Bool.false_eq_true,
                    if_false, List.mem_append, List.mem_cons, List.mem_singleton,
                    List.not_mem_nil, or_false] at he
                  rcases he with ((hp | hm) | (rfl | rfl)) | rfl
                  · rcases hpre e (by simpa using hp) with h | h | h | h
                    · exact Or.inl h
                    · exact Or.inr (Or.inl h)
                    · exact Or.inr (Or.inr (Or.inl h))
                    · exact Or.inr (Or.inr (Or.inr (Or.inl h)))
                  · exact Or.inr (Or.inr (Or.inr (Or.inr (Or.inl (hw e hm)))))
                  · exact Or.inr (Or.inr (Or.inr (Or.inr (Or.inr (Or.inl ⟨true, rfl⟩)))))
                  · exact Or.inr (Or.inr (Or.inr (Or.inr (Or.inr (Or.inr (Or.inl
                      ⟨SBC_CELL.1, SBC_CELL.2, b.readVal, rfl⟩))))))
                  · exact Or.inr (Or.inr (Or.inr (Or.inr (Or.inr (Or.inr (Or.inr
                      ⟨true, rfl⟩))))))

/-- The guarded cleanup emits only close attempts (always with
`SaveChanges=False`) and quit attempts. -/
theorem runCleanup_events (b : CaseBehavior) (st op : Bool) :
    ∀ e ∈ runCleanup b st op,
      (∃ ok, e = Event.closeDoc false ok) ∨ e = Event.quitApp b.quitOk := by
  intro e he
  cases st <;> cases op <;> cases hc : b.closeOk <;>
    simp only [runCleanup, hc, if_true, if_false, Bool.false_eq_true,
      List.mem_cons, List.mem_singleton, List.not_mem_nil, or_false] at he <;>
    first
      | (rcases he with rfl | rfl; exacts [Or.inl ⟨_, rfl⟩, Or.inr rfl])
      | (subst he; exact Or.inl ⟨_, rfl⟩)
      | (subst he; exact Or.inr rfl)

/-- The hygiene sweep emits only process-kill events. -/
theorem kill_events_shape (procs : List String) (raises : Bool) :
    ∀ e ∈ (kill_excel_processes procs raises).1, ∃ n, e = Event.killProc n := by
  intro e he
  cases raises with
  | true => simp [kill_excel_processes] at he
  | false =>
    simp only [kill_excel_processes, Bool.false_eq_true, if_false] at he
    rcases List.mem_map.1 he with ⟨n, _, rfl⟩
    exact ⟨n, rfl⟩

/-- The full trace of one driver invocation, decomposed into its phases. -/
theorem pdf_trace (b : CaseBehavior) (record : Record) (i : Nat) :
    (process_design_file b record i).2 =
      Event.coInit :: ((runBody b record (artifactPath i)).1 ++
        runCleanup b b.dispatchOk (b.dispatchOk && b.openOk) ++ [Event.coUninit] ++
        (kill_excel_processes b.procs b.killRaises).1) := by
  rcases hrb : runBody b record (artifactPath i) with ⟨evs, res⟩
  rcases hk : kill_excel_processes b.procs b.killRaises with ⟨kevs, kres⟩
  simp only [process_design_file, hrb, hk]
  cases kres <;> cases res <;> simp

/-- The result of one driver invocation: a sweep failure replaces the body's
outcome, and a successful body yields the value read plus the artifact path. -/
theorem pdf_result (b : CaseBehavior) (record : Record) (i : Nat) :
    (process_design_file b record i).1 =
      (match (kill_excel_processes b.procs b.killRaises).2 with
       | Except.error e => Except.error e
       | Except.ok _ =>
         match (runBody b record (artifactPath i)).2 with
         | Except.error e => Except.error e
         | Except.ok v => Except.ok (v, artifactPath i)) := by
  rcases hrb : runBody b record (artifactPath i) with ⟨evs, res⟩
  rcases hk : kill_excel_processes b.procs b.killRaises with ⟨kevs, kres⟩
  simp only [process_design_file, hrb, hk]
  cases kres <;> cases res <;> simp

/-- The write loop depends only on the behavior's write outcomes. -/
theorem runWrites_congr (b b' : CaseBehavior) (record : Record)
    (hw : b.writeOk = b'.writeOk) :
    ∀ pm, runWrites b record pm = runWrites b' record pm := by
  intro pm
  induction pm with
  | nil => rfl
  | cons entry rest ih =>
    obtain ⟨name, sheet, cell⟩ := entry
    simp only [runWrites, hw, ih]

/-- The body depends only on the engine-call outcomes and the value read. -/
theorem runBody_congr (b b' : CaseBehavior) (record : Record) (o : String)
    (h1 : b.dispatchOk = b'.dispatchOk) (h2 : b.openOk = b'.openOk)
    (h3 : b.namesOk = b'.namesOk) (h4 : b.sheetOk = b'.sheetOk)
    (hw : b.writeOk = b'.writeOk) (h5 : b.calcOk = b'.calcOk)
    (h6 : b.readOk = b'.readOk) (hr : b.readVal = b'.readVal)
    (h7 : b.saveOk = b'.saveOk) :
    runBody b record o = runBody b' record o := by
  simp only [runBody, h1, h2, h3, h4, h5, h6, h7, hr,
    runWrites_congr b b' record hw PARAM_MAP]

/-- A successful body returns exactly the value read from the result cell. -/
theorem runBody_ok_val (b : CaseBehavior) (record : Record) (o : String) :
    ∀ v, (runBody b record o).2 = Except.ok v → v = b.readVal := by
  intro v h
  rcases hrw : runWrites b record PARAM_MAP with ⟨wEvs, wRes⟩
  cases h1 : b.dispatchOk <;> cases h2 : b.openOk <;> cases h3 : b.namesOk <;>
    cases h4 : b.sheetOk <;> cases h5 : b.calcOk <;> cases h6 : b.readOk <;>
    cases h7 : b.saveOk <;> cases wRes <;>
    simp [runBody, hrw, h1, h2, h3, h4, h5, h6, h7] at h
  exact h.symm

/-- The body succeeds exactly when every engine call up to the save succeeds. -/
theorem runBody_isOk_iff (b : CaseBehavior) (record : Record) (o : String) :
    (∃ v, (runBody b record o).2 = Except.ok v) ↔
      (b.dispatchOk = true ∧ b.openOk = true ∧ b.namesOk = true ∧ b.sheetOk = true ∧
       (∃ u, (runWrites b record PARAM_MAP).2 = Except.ok u) ∧
       b.calcOk = true ∧ b.readOk = true ∧ b.saveOk = true) := by
  rcases hrw : runWrites b record PARAM_MAP with ⟨wEvs, wRes⟩
  cases h1 : b.dispatchOk <;> cases h2 : b.openOk <;> cases h3 : b.namesOk <;>
    cases h4 : b.sheetOk <;> cases h5 : b.calcOk <;> cases h6 : b.readOk <;>
    cases h7 : b.saveOk <;> cases wRes <;>
    simp [runBody, hrw, h1, h2, h3, h4, h5, h6, h7]

/-- A case succeeds exactly when the sweep does not raise and the body
succeeded. -/
theorem okCase_iff (b : CaseBehavior) (record : Record) (i : Nat) :
    okCase b record i = true ↔
      (b.killRaises = false ∧
        ∃ v, (runBody b record (artifactPath i)).2 = Except.ok v) := by
  unfold okCase
  rw [pdf_result]
  cases hkr : b.killRaises with
  | true =>
    simp only [kill_excel_processes, if_true]
    simp
  | false =>
    simp only [kill_excel_processes, Bool.false_eq_true, if_false]
    cases hb : (runBody b record (artifactPath i)).2 with
    | error e => simp [hb]
    | ok v => simp [hb]

/-- Quit membership in the guarded cleanup: the engine must have been started,
and either no workbook was opened or the close call did not raise. -/
theorem runCleanup_quit_mem (b : CaseBehavior) (st op : Bool) :
    Event.quitApp b.quitOk ∈ runCleanup b st op ↔
      (st = true ∧ (op = false ∨ b.closeOk = true)) := by
  cases st <;> cases op <;> cases hc : b.closeOk <;> simp [runCleanup, hc]

/-- Close membership in the guarded cleanup: attempted exactly when a workbook
was opened. -/
theorem runCleanup_close_mem (b : CaseBehavior) (st op : Bool) :
    Event.closeDoc false b.closeOk ∈ runCleanup b st op ↔ op = true := by
  cases st <;> cases op <;> cases hc : b.closeOk <;> simp [runCleanup, hc]

/-- An open success event can only come from a body whose dispatch and open
both succeeded. -/
theorem runBody_openDoc (b : CaseBehavior) (record : Record) (o : String)
    (h : Event.openDoc DESIGN_FILE true ∈ (runBody b record o).1) :
    b.dispatchOk = true ∧ b.openOk = true := by
  cases h1 : b.dispatchOk with
  | false => exfalso; simp [runBody, h1] at h
  | true =>
    cases h2 : b.openOk with
    | false => exfalso; simp [runBody, h1, h2] at h
    | true => exact ⟨rfl, rfl⟩

/-- Every save event of a case targets that case's artifact path. -/
theorem trace_saveAs (b : CaseBehavior) (record : Record) (i : Nat) (p : String)
    (ok : Bool) (h : Event.saveAs p ok ∈ (process_design_file b record i).2) :
    p = artifactPath i := by
  rw [pdf_trace] at h
  simp only [List.mem_cons, List.mem_append, List.mem_singleton] at h
  rcases h with he | (((hb | hc) | he) | hk)
  · exact absurd he (by simp)
  · rcases runBody_event_cases b record _ _ hb with
      ⟨ok2, he⟩ | ⟨ok2, he⟩ | ⟨ok2, he⟩ | ⟨ok2, he⟩ | ⟨s, c, v, he⟩ | ⟨ok2, he⟩ |
      ⟨s, c, v, he⟩ | ⟨ok2, he⟩ <;> simp at he
    exact he.1
  · rcases runCleanup_events b _ _ _ hc with ⟨ok2, he⟩ | he <;> simp at he
  · exact absurd he (by simp)
  · rcases kill_events_shape b.procs b.killRaises _ hk with ⟨n, he⟩
    simp at he

/-- Every close event of a case carries `SaveChanges=False`. -/
theorem trace_close_save_false (b : CaseBehavior) (record : Record) (i : Nat)
    (sc ok : Bool) (h : Event.closeDoc sc ok ∈ (process_design_file b record i).2) :
    sc = false := by
  rw [pdf_trace] at h
  simp only [List.mem_cons, List.mem_append, List.mem_singleton] at h
  rcases h with he | (((hb | hc) | he) | hk)
  · exact absurd he (by simp)
  · exfalso
    rcases runBody_event_cases b record _ _ hb with
      ⟨ok2, he⟩ | ⟨ok2, he⟩ | ⟨ok2, he⟩ | ⟨ok2, he⟩ | ⟨s, c, v, he⟩ | ⟨ok2, he⟩ |
      ⟨s, c, v, he⟩ | ⟨ok2, he⟩ <;> simp at he
  · rcases runCleanup_events b _ _ _ hc with ⟨ok2, he⟩ | he
    · simp only [Event.closeDoc.injEq] at he
      exact he.1
    · exact absurd he (by simp)
  · exact absurd he (by simp)
  · exfalso
    rcases kill_events_shape b.procs b.killRaises _ hk with ⟨n, he⟩
    simp at he

/-- A quit attempt appears in a case's trace exactly when the engine was
started and either the workbook never opened or the close attempt succeeded. -/
theorem trace_quit_iff (b : CaseBehavior) (record : Record) (i : Nat) :
    Event.quitApp b.quitOk ∈ (process_design_file b record i).2 ↔
      (b.dispatchOk = true ∧ (b.openOk = false ∨ b.closeOk = true)) := by
  rw [pdf_trace]
  simp only [List.mem_cons, List.mem_append, List.mem_singleton]
  constructor
  · rintro (he | (((hb | hc) | he) | hk))
    · exact absurd he (by simp)
    · exfalso
      rcases runBody_event_cases b record _ _ hb with
        ⟨ok2, he⟩ | ⟨ok2, he⟩ | ⟨ok2, he⟩ | ⟨ok2, he⟩ | ⟨s, c, v, he⟩ | ⟨ok2, he⟩ |
        ⟨s, c, v, he⟩ | ⟨ok2, he⟩ <;> simp at he
    · have := (runCleanup_quit_mem b b.dispatchOk (b.dispatchOk && b.openOk)).1 hc
      rcases this with ⟨hst, hop⟩
      refine ⟨hst, ?_⟩
      rcases hop with hop | hop
      · rw [hst] at hop
        simp at hop
        exact Or.inl hop
      · exact Or.inr hop
    · exact absurd he (by simp)
    · exfalso
      rcases kill_events_shape b.procs b.killRaises _ hk with ⟨n, he⟩
      simp at he
  · rintro ⟨hd, hop⟩
    refine Or.inr (Or.inl (Or.inl (Or.inr ?_)))
    apply (runCleanup_quit_mem b b.dispatchOk (b.dispatchOk && b.openOk)).2
    refine ⟨hd, ?_⟩
    rcases hop with hop | hop
    · exact Or.inl (by rw [hd, hop]; rfl)
    · exact Or.inr hop

/-- A close attempt (never saving) appears in a case's trace exactly when a
workbook was opened. -/
theorem trace_close_iff (b : CaseBehavior) (record : Record) (i : Nat) :
    Event.closeDoc false b.closeOk ∈ (process_design_file b record i).2 ↔
      (b.dispatchOk && b.openOk) = true := by
  rw [pdf_trace]
  simp only [List.mem_cons, List.mem_append, List.mem_singleton]
  constructor
  · rintro (he | (((hb | hc) | he) | hk))
    · exact absurd he (by simp)
    · exfalso
      rcases runBody_event_cases b record _ _ hb with
        ⟨ok2, he⟩ | ⟨ok2, he⟩ | ⟨ok2, he⟩ | ⟨ok2, he⟩ | ⟨s, c, v, he⟩ | ⟨ok2, he⟩ |
        ⟨s, c, v, he⟩ | ⟨ok2, he⟩ <;> simp at he
    · exact (runCleanup_close_mem b b.dispatchOk (b.dispatchOk && b.openOk)).1 hc
    · exact absurd he (by simp)
    · exfalso
      rcases kill_events_shape b.procs b.killRaises _ hk with ⟨n, he⟩
      simp at he
  · intro hop
    exact Or.inr (Or.inl (Or.inl (Or.inr
      ((runCleanup_close_mem b b.dispatchOk (b.dispatchOk && b.openOk)).2 hop))))

/-- An open success in a case's trace means dispatch and open both succeeded. -/
theorem trace_openDoc (b : CaseBehavior) (record : Record) (i : Nat)
    (h : Event.openDoc DESIGN_FILE true ∈ (process_design_file b record i).2) :
    b.dispatchOk = true ∧ b.openOk = true := by
  rw [pdf_trace] at h
  simp only [List.mem_cons, List.mem_append, List.mem_singleton] at h
  rcases h with he | (((hb | hc) | he) | hk)
  · exact absurd he (by simp)
  · exact runBody_openDoc b record _ hb
  · exfalso
    rcases runCleanup_events b _ _ _ hc with ⟨ok2, he⟩ | he <;> simp at he
  · exact absurd he (by simp)
  · exfalso
    rcases kill_events_shape b.procs b.killRaises _ hk with ⟨n, he⟩
    simp at he

/-- The uninitialize call of the `finally` block appears in every trace. -/
theorem trace_coUninit (b : CaseBehavior) (record : Record) (i : Nat) :
    Event.coUninit ∈ (process_design_file b record i).2 := by
  rw [pdf_trace]
  simp

/-- When the sweep does not raise, every matching process is killed, in every
case, success or failure alike. -/
theorem trace_kill_mem (b : CaseBehavior) (record : Record) (i : Nat) (n : String)
    (hk : b.killRaises = false) (hn : n ∈ b.procs)
    (hname : strLower n = "excel.exe") :
    Event.killProc n ∈ (process_design_file b record i).2 := by
  rw [pdf_trace]
  simp only [List.mem_cons, List.mem_append, List.mem_singleton]
  refine Or.inr (Or.inr ?_)
  simp only [kill_excel_processes, hk, Bool.false_eq_true, if_false]
  exact List.mem_map.2 ⟨n, List.mem_filter.2 ⟨hn, by rw [hname]; rfl⟩, rfl⟩

/-- The result of a case is unchanged by the outcomes of the cleanup calls:
close and quit failures are swallowed. -/
theorem pdf_result_cleanup_invariant (b : CaseBehavior) (record : Record) (i : Nat)
    (c q : Bool) :
    (process_design_file { b with closeOk := c, quitOk := q } record i).1 =
      (process_design_file b record i).1 := by
  rw [pdf_result, pdf_result]
  rw [runBody_congr { b with closeOk := c, quitOk := q } b record (artifactPath i)
    rfl rfl rfl rfl rfl rfl rfl rfl rfl]

/-- A successful driver result carries the artifact path and exactly the value
read back. -/
theorem pdf_ok_parts (b : CaseBehavior) (record : Record) (i : Nat) (v : Option Int)
    (p : String) (h : (process_design_file b record i).1 = Except.ok (v, p)) :
    p = artifactPath i ∧ v = b.readVal := by
  rw [pdf_result] at h
  cases hk : (kill_excel_processes b.procs b.killRaises).2 with
  | error e => rw [hk] at h; simp at h
  | ok u =>
    rw [hk] at h
    cases hb : (runBody b record (artifactPath i)).2 with
    | error e => simp [hb] at h
    | ok v2 =>
      simp only [hb, Except.ok.injEq, Prod.mk.injEq] at h
      rcases h with ⟨hv, hp⟩
      exact ⟨hp.symm, hv.symm ▸ (runBody_ok_val b record (artifactPath i) v2 hb).symm ▸ rfl⟩

/-- Success of a case ignores the value read back: an absent result is not
validated against. -/
theorem okCase_readVal (b : CaseBehavior) (record : Record) (i : Nat) (x : Option Int) :
    okCase { b with readVal := x } record i = okCase b record i := by
  rw [Bool.eq_iff_iff, okCase_iff, okCase_iff]
  rw [runBody_isOk_iff, runBody_isOk_iff]
  rw [runWrites_congr { b with readVal := x } b record rfl PARAM_MAP]

/-- A successful body recorded a successful save of the artifact. -/
theorem runBody_ok_saveAs (b : CaseBehavior) (record : Record) (o : String)
    (v : Option Int) (h : (runBody b record o).2 = Except.ok v) :
    Event.saveAs o true ∈ (runBody b record o).1 := by
  rcases hrw : runWrites b record PARAM_MAP with ⟨wEvs, wRes⟩
  cases h1 : b.dispatchOk <;> cases h2 : b.openOk <;> cases h3 : b.namesOk <;>
    cases h4 : b.sheetOk <;> cases h5 : b.calcOk <;> cases h6 : b.readOk <;>
    cases h7 : b.saveOk <;> cases wRes <;>
    simp [runBody, hrw, h1, h2, h3, h4, h5, h6, h7] at h ⊢

/-- A successful case's trace records a successful save at the artifact path. -/
theorem trace_ok_saveAs (b : CaseBehavior) (record : Record) (i : Nat)
    (h : okCase b record i = true) :
    Event.saveAs (artifactPath i) true ∈ (process_design_file b record i).2 := by
  rcases (okCase_iff b record i).1 h with ⟨hk, v, hv⟩
  rw [pdf_trace]
  simp only [List.mem_cons, List.mem_append, List.mem_singleton]
  exact Or.inr (Or.inl (Or.inl (Or.inl (runBody_ok_saveAs b record _ v hv))))

/-- A successful case returns exactly the value read, paired with the artifact
path. -/
theorem okCase_result (b : CaseBehavior) (record : Record) (i : Nat)
    (h : okCase b record i = true) :
    (process_design_file b record i).1 =
        Except.ok (sbcOf b record i, artifactPath i) ∧
      sbcOf b record i = b.readVal := by
  unfold okCase at h
  cases hpr : (process_design_file b record i).1 with
  | error e => rw [hpr] at h; simp at h
  | ok val =>
    rcases val with ⟨v, p⟩
    rcases pdf_ok_parts b record i v p hpr with ⟨hp, hv⟩
    subst hp
    subst hv
    have hs : sbcOf b record i = b.readVal := by
      unfold sbcOf
      rw [hpr]
    constructor
    · rw [hs]
    · exact hs

/-- Length of a string built from a character list. -/
theorem stringMk_length (l : List Char) : (String.mk l).length = l.length := rfl

/-- The padded index is the decimal form padded to width at least 3. -/
theorem pad3_length (n : Nat) : (pad3 n).length = max 3 (toString n).length := by
  simp only [pad3, String.length_append, stringMk_length, List.length_replicate]
  omega

/-- The padded index has width at least 3. -/
theorem pad3_ge_3 (n : Nat) : 3 ≤ (pad3 n).length := by
  rw [pad3_length]
  omega

/-- No artifact path is the template path: the template is never saved over. -/
theorem artifactPath_ne_design (i : Nat) : artifactPath i ≠ DESIGN_FILE := by
  intro h
  have hlen := congrArg String.length h
  simp only [artifactPath, String.length_append] at hlen
  have h1 : DESIGN_CASES_DIR.length = 30 := by decide
  have h2 : ("\\Design_Case_" : String).length = 13 := by decide
  have h3 : (".xlsx" : String).length = 5 := by decide
  have h4 : DESIGN_FILE.length = 29 := by decide
  have h5 := pad3_ge_3 i
  omega

/-- Filtering by a weaker predicate preserves the first match of a stronger
one. -/
theorem find?_filter_imp {α : Type} (p q : α → Bool)
    (himp : ∀ x, p x = true → q x = true) :
    ∀ l : List α, (l.filter q).find? p = l.find? p := by
  intro l
  induction l with
  | nil => simp
  | cons x xs ih =>
    cases hq : q x with
    | true =>
      rw [List.filter_cons_of_pos hq]
      cases hp : p x with
      | true => rw [List.find?_cons_of_pos _ hp, List.find?_cons_of_pos _ hp]
      | false =>
        rw [List.find?_cons_of_neg _ (by simp [hp]),
          List.find?_cons_of_neg _ (by simp [hp]), ih]
    | false =>
      have hp : p x = false := by
        cases hpx : p x with
        | true => exact absurd (himp x hpx) (by simp [hq])
        | false => rfl
      rw [List.filter_cons_of_neg (by simp [hq]), ih,
        List.find?_cons_of_neg _ (by simp [hp])]

/-- A cell lookup restricted to the cell's own row. -/
theorem getCell_eq_rowCells (ws : OutSheet) (R c : Nat) :
    getCell ws (R, c) =
      ((rowCells ws R).find? (fun x => x.1 == (R, c))).map (fun x => x.2) := by
  unfold getCell rowCells
  rw [find?_filter_imp (fun x => x.1 == (R, c)) (fun x => x.1.1 == R)
    (fun x hx => by
      simp only [beq_iff_eq] at hx ⊢
      rw [hx]) ws.cells]

/-- Rendered parameter cells never reach a column past the record's width. -/
theorem renderParams_find_col (R : Nat) (ps : Record) (cIdx col : Nat)
    (h : cIdx + ps.length ≤ col) :
    (renderParams R ps cIdx).find? (fun x => x.1 == (R, col)) = none := by
  apply List.find?_eq_none.2
  intro x hx
  have hs := renderParams_shape R ps cIdx x hx
  simp only [beq_iff_eq]
  intro he
  rw [he] at hs
  simp at hs
  omega

/-- The result column of a rendered row holds exactly the case's result value:
an absent result leaves the cell unset. -/
theorem renderRow_result_cell (R : Nat) (r : Record) (sbc : Option Int) :
    (renderRow R r sbc).find? (fun x => x.1 == (R, r.length + 1)) =
      sbc.map (fun v => ((R, r.length + 1), CellVal.num v)) := by
  unfold renderRow
  rw [List.find?_append, renderParams_find_col R r 1 (r.length + 1) (by omega)]
  cases sbc <;> simp

/-- The required-field check succeeds exactly when every required key is
stored with a present value. -/
theorem rowValid_iff (r : Record) :
    rowValid r = Except.ok true ↔
      ∀ k ∈ REQUIRED_KEYS, ∃ p, r.find? (fun q => q.1 == k) = some p ∧
        p.2.isSome = true := by
  have hgen : ∀ ks : List String, requiredAll r ks = Except.ok true ↔
      ∀ k ∈ ks, ∃ p, r.find? (fun q => q.1 == k) = some p ∧ p.2.isSome = true := by
    intro ks
    induction ks with
    | nil => simp [requiredAll]
    | cons k rest ih =>
      constructor
      · intro h k2 hk2
        cases hf : r.find? (fun q => q.1 == k) with
        | none => simp [requiredAll, dictGet, hf] at h
        | some p =>
          cases hv : p.2 with
          | none => simp [requiredAll, dictGet, hf, hv] at h
          | some v =>
            have hrest : requiredAll r rest = Except.ok true := by
              simpa [requiredAll, dictGet, hf, hv] using h
            rcases List.mem_cons.1 hk2 with rfl | hk2
            · exact ⟨p, hf, by simp [hv]⟩
            · exact (ih.1 hrest) k2 hk2
      · intro h
        rcases h k (List.mem_cons_self k rest) with ⟨p, hf, hs⟩
        rcases Option.isSome_iff_exists.1 hs with ⟨v, hv⟩
        simp only [requiredAll, dictGet, hf, hv]
        exact ih.2 (fun k2 hk2 => h k2 (List.mem_cons_of_mem k hk2))
  exact hgen REQUIRED_KEYS

/-- Every trace the loop records came from the driver run on some record, at
the case index given by its position. -/
theorem traceList_mem (beh : Nat → CaseBehavior) :
    ∀ (rs : List Record) (rIdx : Nat) (tr : List Event), tr ∈ traceList beh rs rIdx →
      ∃ j r, rs[j]? = some r ∧
        tr = (process_design_file (beh (rIdx + j - 1)) r (rIdx + j - 1)).2 := by
  intro rs
  induction rs with
  | nil => intro rIdx tr h; simp [traceList] at h
  | cons q rest ih =>
    intro rIdx tr h
    rcases List.mem_cons.1 h with rfl | h2
    · exact ⟨0, q, by simp, by simp⟩
    · rcases ih (rIdx + 1) tr h2 with ⟨j, r, hj, htr⟩
      refine ⟨j + 1, r, by simpa using hj, ?_⟩
      have harith : rIdx + 1 + j - 1 = rIdx + (j + 1) - 1 := by omega
      rw [harith] at htr
      exact htr

/-- A position holding a value is within bounds. -/
theorem getElem?_some_lt {α : Type} (l : List α) (j : Nat) (a : α)
    (h : l[j]? = some a) : j < l.length := by
  by_contra hc
  rw [List.getElem?_eq_none_iff.2 (by omega)] at h
  exact absurd h (by simp)

/-- A failed case's driver result is an error. -/
theorem okCase_false (b : CaseBehavior) (record : Record) (i : Nat)
    (h : okCase b record i = false) :
    ∃ e, (process_design_file b record i).1 = Except.error e := by
  unfold okCase at h
  cases hpr : (process_design_file b record i).1 with
  | error e => exact ⟨e, rfl⟩
  | ok v => rw [hpr] at h; simp at h

/-- When every case fails, the loop appends nothing. -/
theorem blocks_all_fail (beh : Nat → CaseBehavior) :
    ∀ (rs : List Record) (rIdx : Nat),
      (∀ j r, rs[j]? = some r →
        okCase (beh (rIdx + j - 1)) r (rIdx + j - 1) = false) →
      blocks beh rs rIdx = [] := by
  intro rs
  induction rs with
  | nil => intro rIdx h; simp [blocks]
  | cons q rest ih =>
    intro rIdx h
    have h0 := h 0 q (by simp)
    rw [Nat.add_zero] at h0
    rcases okCase_false (beh (rIdx - 1)) q (rIdx - 1) h0 with ⟨e, he⟩
    simp only [blocks, he]
    apply ih (rIdx + 1)
    intro j r hj
    have := h (j + 1) r (by simpa using hj)
    have harith : rIdx + (j + 1) - 1 = rIdx + 1 + j - 1 := by omega
    rwa [harith] at this

/-- Rows of successful cases lie in the processed range. -/
theorem succRows_mem_bounds (beh : Nat → CaseBehavior) :
    ∀ (rs : List Record) (rIdx x : Nat), x ∈ succRows beh rs rIdx →
      rIdx ≤ x ∧ x < rIdx + rs.length := by
  intro rs
  induction rs with
  | nil => intro rIdx x h; simp [succRows] at h
  | cons q rest ih =>
    intro rIdx x h
    simp only [succRows] at h
    by_cases hc : okCase (beh (rIdx - 1)) q (rIdx - 1) = true
    · rw [if_pos hc] at h
      rcases List.mem_cons.1 h with rfl | h2
      · simp only [List.length_cons]; omega
      · have := ih (rIdx + 1) x h2
        simp only [List.length_cons]
        omega
    · rw [if_neg hc] at h
      have := ih (rIdx + 1) x h
      simp only [List.length_cons]
      omega

/-- A successful case's row is among the successful rows. -/
theorem succRows_mem_of_ok (beh : Nat → CaseBehavior) :
    ∀ (rs : List Record) (rIdx j : Nat) (r : Record), rs[j]? = some r →
      okCase (beh (rIdx + j - 1)) r (rIdx + j - 1) = true →
      (rIdx + j) ∈ succRows beh rs rIdx := by
  intro rs
  induction rs with
  | nil => intro rIdx j r h; simp at h
  | cons q rest ih =>
    intro rIdx j r hj hok
    cases j with
    | zero =>
      simp only [List.getElem?_cons_zero, Option.some_inj] at hj
      subst hj
      rw [Nat.add_zero] at hok ⊢
      simp only [succRows, hok, if_true]
      exact List.mem_cons_self _ _
    | succ j =>
      simp only [List.getElem?_cons_succ] at hj
      have harith : rIdx + (j + 1) = rIdx + 1 + j := by omega
      rw [harith] at hok ⊢
      have hrec := ih (rIdx + 1) j r hj hok
      simp only [succRows]
      by_cases hc : okCase (beh (rIdx - 1)) q (rIdx - 1) = true
      · rw [if_pos hc]
        exact List.mem_cons_of_mem _ hrec
      · rw [if_neg hc]
        exact hrec

/-- The required-field check raises the key error of the first required key
whose lookup fails, provided every earlier required key is present. -/
theorem requiredAll_error (r : Record) :
    ∀ (pre : List String) (k : String) (post : List String),
      (∀ k2 ∈ pre, ∃ p, r.find? (fun q => q.1 == k2) = some p ∧ p.2.isSome = true) →
      r.find? (fun q => q.1 == k) = none →
      requiredAll r (pre ++ k :: post) = Except.error (Err.keyError k) := by
  intro pre
  induction pre with
  | nil =>
    intro k post _ hmiss
    simp [requiredAll, dictGet, hmiss]
  | cons k2 rest ih =>
    intro k post hpre hmiss
    rcases hpre k2 (List.mem_cons_self k2 rest) with ⟨p, hf, hs⟩
    rcases Option.isSome_iff_exists.1 hs with ⟨v, hv⟩
    simp only [List.cons_append, requiredAll, dictGet, hf, hv]
    exact ih k post (fun k3 hk3 => hpre k3 (List.mem_cons_of_mem k2 hk3)) hmiss

/-- C1: for every batch run, the data rows of the saved Output Table are
exactly the successful cases' rows, in the order of the valid input records: a
failed case's row position holds no data, a successful case's row holds its
record's rendered values, the data-row count equals the successful-case count
(by the first equation), and is at most the number of valid input records. -/
theorem claim_C1 (w : WorldInput) (vr : List Record)
    (hv : filterValid (loadedRows w) = Except.ok vr)
    (hok : (main' w).1 = Except.ok ()) :
    ∃ ws, (main' w).2.savedOutput = some ws ∧
      dataRowIndices ws = succRows w.beh vr 2 ∧
      (dataRowIndices ws).length ≤ vr.length ∧
      (∀ j r, vr[j]? = some r → okCase (w.beh (j + 1)) r (j + 1) = true →
        rowCells ws (j + 2) = renderRow (j + 2) r (sbcOf (w.beh (j + 1)) r (j + 1))) ∧
      (∀ j r, vr[j]? = some r → okCase (w.beh (j + 1)) r (j + 1) = false →
        rowCells ws (j + 2) = []) := by
  rcases main'_ok_inv w hok with ⟨h1, h2, hne, r0, rest, hv2⟩
  have hvr : vr = r0 :: rest := by
    rw [hv] at hv2
    injection hv2
  have hvalid := filterValid_mem (loadedRows w) vr hv
  have hrun := main'_run w r0 rest h1 h2 hne hv2
  rw [← hvr] at hrun
  refine ⟨⟨"Results",
    headerCells (r0.map (fun p => p.1) ++ [RESULT_COL]) 1 ++ blocks w.beh vr 2⟩,
    ?_, ?_, ?_, ?_, ?_⟩
  · rw [hrun]
  · exact dataRows_of_run w.beh vr _ hvalid
  · rw [dataRows_of_run w.beh vr _ hvalid]
    exact succRows_length_le w.beh vr 2
  · intro j r hj hcase
    rw [rowCells_of_run w.beh vr _ j r hj, (okCase_result _ r (j + 1) hcase).1]
  · intro j r hj hcase
    rcases okCase_false (w.beh (j + 1)) r (j + 1) hcase with ⟨e, he⟩
    rw [rowCells_of_run w.beh vr _ j r hj, he]

/-- C1 witness: the three-record batch whose middle case fails saves data rows
2 and 4 only, matching the two successful records. -/
theorem claim_C1_witness :
    (filterValid (loadedRows W2) = Except.ok W2valid) ∧
    ((main' W2).1 = Except.ok ()) ∧
    (∃ ws, (main' W2).2.savedOutput = some ws ∧
      dataRowIndices ws = succRows W2.beh W2valid 2 ∧
      (dataRowIndices ws).length ≤ W2valid.length ∧
      (∀ j r, W2valid[j]? = some r → okCase (W2.beh (j + 1)) r (j + 1) = true →
        rowCells ws (j + 2) = renderRow (j + 2) r (sbcOf (W2.beh (j + 1)) r (j + 1))) ∧
      (∀ j r, W2valid[j]? = some r → okCase (W2.beh (j + 1)) r (j + 1) = false →
        rowCells ws (j + 2) = [])) := by
  have h1 : filterValid (loadedRows W2) = Except.ok W2valid := by decide
  have h2 : (main' W2).1 = Except.ok () := by decide
  exact ⟨h1, h2, claim_C1 W2 W2valid h1 h2⟩

/-- C2 counterexample: in an otherwise fully successful case whose document
close raises, the engine was started and the document opened and the close was
attempted — but no quit attempt appears in the trace, refuting "both attempted"
as stated. -/
theorem claim_C2_counterexample :
    Event.openDoc DESIGN_FILE true ∈
      (process_design_file { okBeh with closeOk := false } recA 1).2 ∧
    Event.closeDoc false false ∈
      (process_design_file { okBeh with closeOk := false } recA 1).2 ∧
    Event.quitApp true ∉
      (process_design_file { okBeh with closeOk := false } recA 1).2 ∧
    Event.quitApp false ∉
      (process_design_file { okBeh with closeOk := false } recA 1).2 := by
  decide

/-- C2 (amended): on every exit of a case, a close attempt (always with
SaveChanges disabled) appears exactly when a document was opened; a quit
attempt appears exactly when the engine was started and either no document was
opened or the close attempt did not raise (a raising close skips the quit);
close and quit outcomes never change the case's result; the uninitialize call
and the process-hygiene sweep run after every case, killing every matching
process when the sweep does not raise; and the batch loop catches every
per-case error, so once the fatal guards pass the batch always completes, no
matter what any case — sweep included — does. -/
theorem claim_C2 (b : CaseBehavior) (record : Record) (i : Nat) :
    (Event.closeDoc false b.closeOk ∈ (process_design_file b record i).2 ↔
      (b.dispatchOk && b.openOk) = true) ∧
    (∀ sc ok, Event.closeDoc sc ok ∈ (process_design_file b record i).2 →
      sc = false) ∧
    (Event.quitApp b.quitOk ∈ (process_design_file b record i).2 ↔
      (b.dispatchOk = true ∧ (b.openOk = false ∨ b.closeOk = true))) ∧
    (∀ c q, (process_design_file { b with closeOk := c, quitOk := q } record i).1 =
      (process_design_file b record i).1) ∧
    Event.coUninit ∈ (process_design_file b record i).2 ∧
    (∀ n, b.killRaises = false → n ∈ b.procs → strLower n = "excel.exe" →
      Event.killProc n ∈ (process_design_file b record i).2) ∧
    (∀ (w : WorldInput) (r0 : Record) (rest : List Record),
      w.inputExists = true → w.designExists = true → loadedRows w ≠ [] →
      filterValid (loadedRows w) = Except.ok (r0 :: rest) →
      (main' w).1 = Except.ok ()) := by
  refine ⟨trace_close_iff b record i,
    fun sc ok h => trace_close_save_false b record i sc ok h,
    trace_quit_iff b record i,
    fun c q => pdf_result_cleanup_invariant b record i c q,
    trace_coUninit b record i,
    fun n hk hn hname => trace_kill_mem b record i n hk hn hname,
    fun w r0 rest h1 h2 hne hv => ?_⟩
  rw [main'_run w r0 rest h1 h2 hne hv]

/-- C2 witness: the fully successful behavior attempts close and quit, kills
the lingering engine process, and a batch with a raising sweep still
completes. -/
theorem claim_C2_witness :
    Event.closeDoc false true ∈ (process_design_file okBeh recA 1).2 ∧
    Event.quitApp true ∈ (process_design_file okBeh recA 1).2 ∧
    Event.killProc "EXCEL.EXE" ∈ (process_design_file okBeh recA 1).2 ∧
    (process_design_file { okBeh with closeOk := false, quitOk := false } recA 1).1 =
      (process_design_file okBeh recA 1).1 ∧
    (main' W2).1 = Except.ok () := by
  rcases claim_C2 okBeh recA 1 with ⟨hclose, _, hquit, hres, _, hkill, hbatch⟩
  refine ⟨hclose.2 (by decide), hquit.2 (by decide), ?_, hres false false,
    hbatch W2 W2valid.head! W2valid.tail (by decide) (by decide) (by decide) (by decide)⟩
  exact hkill "EXCEL.EXE" (by decide) (by decide) (by decide)

/-- C3: a record is valid iff all four required fields are stored with present
values; in any completed run the driver runs once per valid record only (one
trace per valid record, in order), every kept record passes the check, every
data row of the saved table sits at a valid record's position, and every
artifact save in the run targets a valid record's case path. -/
theorem claim_C3 (w : WorldInput) (vr : List Record)
    (hv : filterValid (loadedRows w) = Except.ok vr)
    (hok : (main' w).1 = Except.ok ()) :
    (∀ r : Record, rowValid r = Except.ok true ↔
      ∀ k ∈ REQUIRED_KEYS, ∃ p, r.find? (fun q => q.1 == k) = some p ∧
        p.2.isSome = true) ∧
    (main' w).2.caseTraces.length = vr.length ∧
    (∀ j r, vr[j]? = some r → (main' w).2.caseTraces[j]? =
      some (process_design_file (w.beh (j + 1)) r (j + 1)).2) ∧
    (∀ r ∈ vr, rowValid r = Except.ok true) ∧
    (∃ ws, (main' w).2.savedOutput = some ws ∧
      ∀ idx ∈ dataRowIndices ws, ∃ j r, vr[j]? = some r ∧ idx = j + 2) ∧
    (∀ tr ∈ (main' w).2.caseTraces, ∀ p ok, Event.saveAs p ok ∈ tr →
      ∃ j, j < vr.length ∧ p = artifactPath (j + 1)) := by
  rcases main'_ok_inv w hok with ⟨h1, h2, hne, r0, rest, hv2⟩
  have hvr : vr = r0 :: rest := by
    rw [hv] at hv2
    injection hv2
  have hvalid := filterValid_mem (loadedRows w) vr hv
  have hrun := main'_run w r0 rest h1 h2 hne hv2
  rw [← hvr] at hrun
  have htr : (main' w).2.caseTraces = traceList w.beh vr 2 := by rw [hrun]
  refine ⟨fun r => rowValid_iff r, ?_, ?_, hvalid, ?_, ?_⟩
  · rw [htr]
    exact traceList_length w.beh vr 2
  · intro j r hj
    rw [htr]
    have hg := traceList_get w.beh vr j 2 r hj
    rw [show 2 + j - 1 = j + 1 by omega] at hg
    exact hg
  · refine ⟨⟨"Results",
      headerCells (r0.map (fun p => p.1) ++ [RESULT_COL]) 1 ++ blocks w.beh vr 2⟩,
      by rw [hrun], ?_⟩
    intro idx hidx
    rw [dataRows_of_run w.beh vr _ hvalid] at hidx
    have hb := succRows_mem_bounds w.beh vr 2 idx hidx
    cases hx : vr[idx - 2]? with
    | none =>
      have := List.getElem?_eq_none_iff.1 hx
      omega
    | some r => exact ⟨idx - 2, r, hx, by omega⟩
  · intro tr htrm p ok hsave
    rw [htr] at htrm
    rcases traceList_mem w.beh vr 2 tr htrm with ⟨j, r, hj, htr2⟩
    subst htr2
    have hp := trace_saveAs _ r _ p ok hsave
    refine ⟨j, getElem?_some_lt vr j r hj, ?_⟩
    rw [hp, show 2 + j - 1 = j + 1 by omega]

/-- C3 witness: a two-row input with one record missing its cohesion value
keeps only the valid record; that run completes with exactly one driver
trace. -/
theorem claim_C3_witness :
    (filterValid (loadedRows W3) = Except.ok W3valid) ∧
    ((main' W3).1 = Except.ok ()) ∧
    ((main' W3).2.caseTraces.length = W3valid.length) ∧
    (∀ r ∈ W3valid, rowValid r = Except.ok true) := by
  have h1 : filterValid (loadedRows W3) = Except.ok W3valid := by decide
  have h2 : (main' W3).1 = Except.ok () := by decide
  have h := claim_C3 W3 W3valid h1 h2
  exact ⟨h1, h2, h.2.1, h.2.2.2.1⟩

/-- C4: every save a case performs — and the path a successful case returns —
is the artifact directory joined with the zero-padded case filename; the
padding widens the decimal index to at least 3 digits; in a completed run the
driver is invoked exactly once per valid record, the `j`-th invocation using
case index `j + 1` whether or not it succeeds (a failed case still consumes
its index), and the consumed indices `1, 2, ...` are strictly increasing. -/
theorem claim_C4 (w : WorldInput) (vr : List Record)
    (hv : filterValid (loadedRows w) = Except.ok vr)
    (hok : (main' w).1 = Except.ok ()) :
    (∀ (b : CaseBehavior) (record : Record) (i : Nat),
      (∀ p ok, Event.saveAs p ok ∈ (process_design_file b record i).2 →
        p = artifactPath i) ∧
      (∀ v p, (process_design_file b record i).1 = Except.ok (v, p) →
        p = artifactPath i)) ∧
    (∀ i, artifactPath i = DESIGN_CASES_DIR ++ "\\Design_Case_" ++ pad3 i ++ ".xlsx" ∧
      (pad3 i).length = max 3 (toString i).length) ∧
    (main' w).2.caseTraces.length = vr.length ∧
    (∀ j r, vr[j]? = some r → (main' w).2.caseTraces[j]? =
      some (process_design_file (w.beh (j + 1)) r (j + 1)).2) ∧
    List.Pairwise (· < ·) ((List.range vr.length).map (fun j => j + 1)) := by
  rcases main'_ok_inv w hok with ⟨h1, h2, hne, r0, rest, hv2⟩
  have hvr : vr = r0 :: rest := by
    rw [hv] at hv2
    injection hv2
  have hrun := main'_run w r0 rest h1 h2 hne hv2
  rw [← hvr] at hrun
  have htr : (main' w).2.caseTraces = traceList w.beh vr 2 := by rw [hrun]
  refine ⟨?_, fun i => ⟨rfl, pad3_length i⟩, ?_, ?_, ?_⟩
  · intro b record i
    exact ⟨fun p ok h => trace_saveAs b record i p ok h,
      fun v p h => (pdf_ok_parts b record i v p h).1⟩
  · rw [htr]
    exact traceList_length w.beh vr 2
  · intro j r hj
    rw [htr]
    have hg := traceList_get w.beh vr j 2 r hj
    rw [show 2 + j - 1 = j + 1 by omega] at hg
    exact hg
  · refine List.Pairwise.map (fun j => j + 1) ?_ (List.pairwise_lt_range vr.length)
    intro a b h
    simp only
    omega

/-- C4 witness: the three-record batch's traces use case indices 1, 2, 3 in
order, and the driver's case-1 result path is `Design_Case_001.xlsx` in the
artifact directory. -/
theorem claim_C4_witness :
    (filterValid (loadedRows W2) = Except.ok W2valid) ∧
    ((main' W2).1 = Except.ok ()) ∧
    (main' W2).2.caseTraces.length = W2valid.length ∧
    artifactPath 1 = "C:\\Users\\MOMI9362\\Design_Cases\\Design_Case_001.xlsx" := by
  have h1 : filterValid (loadedRows W2) = Except.ok W2valid := by decide
  have h2 : (main' W2).1 = Except.ok () := by decide
  have h := claim_C4 W2 W2valid h1 h2
  refine ⟨h1, h2, h.2.2.1, ?_⟩
  rw [(h.2.1 1).1]
  decide

/-- C5: once the fatal guards pass (files exist, input nonempty, at least one
valid record), the batch completes whatever the cases do — a case failure is
skipped, never aborting the loop — and the Output Table is saved
unconditionally; if every case fails the saved table holds only the header
row. -/
theorem claim_C5 (w : WorldInput) (r0 : Record) (rest : List Record)
    (h1 : w.inputExists = true) (h2 : w.designExists = true)
    (hne : loadedRows w ≠ [])
    (hv : filterValid (loadedRows w) = Except.ok (r0 :: rest)) :
    (main' w).1 = Except.ok () ∧
    (∃ ws, (main' w).2.savedOutput = some ws ∧ ws.title = "Results" ∧
      ((∀ j r, (r0 :: rest)[j]? = some r →
          okCase (w.beh (j + 1)) r (j + 1) = false) →
        ws.cells = headerCells (r0.map (fun p => p.1) ++ [RESULT_COL]) 1)) := by
  have hrun := main'_run w r0 rest h1 h2 hne hv
  constructor
  · rw [hrun]
  · refine ⟨⟨"Results",
      headerCells (r0.map (fun p => p.1) ++ [RESULT_COL]) 1 ++
        blocks w.beh (r0 :: rest) 2⟩, by rw [hrun], rfl, ?_⟩
    intro hfail
    have hblocks : blocks w.beh (r0 :: rest) 2 = [] := by
      apply blocks_all_fail w.beh (r0 :: rest) 2
      intro j r hj
      have := hfail j r hj
      rwa [show j + 1 = 2 + j - 1 by omega] at this
    simp only [hblocks, List.append_nil]

/-- C5 witness: a batch whose single case fails at dispatch still completes and
saves a header-only table. -/
theorem claim_C5_witness :
    (loadedRows W5 ≠ []) ∧
    (filterValid (loadedRows W5) = Except.ok (loadedRows W5)) ∧
    ((main' W5).1 = Except.ok ()) ∧
    (∃ ws, (main' W5).2.savedOutput = some ws ∧ ws.title = "Results") := by
  have hne : loadedRows W5 ≠ [] := by decide
  have hv : filterValid (loadedRows W5) =
      Except.ok ([("width", some 1), ("length", some 2), ("cohesion", some 3),
        ("phi", some 4), ("gwt_depth", some 5), ("burial_depth", some 6)] :: []) := by
    decide
  have h := claim_C5 W5
    [("width", some 1), ("length", some 2), ("cohesion", some 3),
      ("phi", some 4), ("gwt_depth", some 5), ("burial_depth", some 6)] []
    (by decide) (by decide) hne hv
  refine ⟨hne, by decide, h.1, ?_⟩
  rcases h.2 with ⟨ws, hws, htitle, _⟩
  exact ⟨ws, hws, htitle⟩

/-- C6 counterexample: an input whose only row fails validation aborts the run
from the output-template builder with an index error — not with the
empty-input `ValueError` the run raises for a rowless table — so "aborts with
EmptyInputError" is false as stated for the zero-valid-rows case. -/
theorem claim_C6_counterexample :
    (main' W6).1 = Except.error Err.indexError ∧
    Err.indexError ≠ Err.valueError "No parameter sets loaded from Input.xlsx" ∧
    (main' W6).2.savedOutput = none ∧ (main' W6).2.caseTraces = [] := by
  decide

/-- C6 (amended): fatal errors are never recovered, and each aborts with no
output file written and no case processed: a missing input or template file
raises the not-found error before the artifact directory is touched; a rowless
input table raises the empty-input `ValueError`; an input whose rows all fail
validation aborts too, but via the template builder's `IndexError` on the
empty sequence rather than an explicit empty-input error. -/
theorem claim_C6 (w : WorldInput) :
    (w.inputExists = false →
      main' w = (Except.error (Err.fileNotFound ("Input file not found: " ++ INPUT_FILE)),
        ⟨false, [], none⟩)) ∧
    (w.inputExists = true → w.designExists = false →
      main' w = (Except.error (Err.fileNotFound ("Design file not found: " ++ DESIGN_FILE)),
        ⟨false, [], none⟩)) ∧
    (w.inputExists = true → w.designExists = true → loadedRows w = [] →
      main' w = (Except.error (Err.valueError "No parameter sets loaded from Input.xlsx"),
        ⟨true, [], none⟩)) ∧
    (w.inputExists = true → w.designExists = true →
      filterValid (loadedRows w) = Except.ok [] → loadedRows w ≠ [] →
      main' w = (Except.error Err.indexError, ⟨true, [], none⟩)) ∧
    (∀ e, (main' w).1 = Except.error e →
      (main' w).2.savedOutput = none ∧ (main' w).2.caseTraces = []) := by
  refine ⟨?_, ?_, ?_, ?_, fun e he => main'_fatal_no_output w e he⟩
  · intro h
    simp [main', h]
  · intro h1 h2
    simp [main', h1, h2]
  · intro h1 h2 hl
    unfold loadedRows at hl
    simp [main', h1, h2, hl]
  · intro h1 h2 hfv hne
    unfold loadedRows at hfv hne
    rcases hl : load_parameter_sets w.headers w.body with _ | ⟨x, xs⟩
    · exact absurd hl hne
    · rw [hl] at hfv
      simp [main', h1, h2, hl, hfv, create_output_template]

/-- C6 witness: the world whose only record misses its cohesion value aborts
with the builder's index error, writing nothing. -/
theorem claim_C6_witness :
    main' W6 = (Except.error Err.indexError, ⟨true, [], none⟩) :=
  (claim_C6 W6).2.2.2.1 (by decide) (by decide) (by decide) (by decide)

/-- C7: in a batch where every case succeeds, the saved table's data-row count
equals the valid-record count; row 1 of the single sheet `Results` is the
first record's keys in order plus the fixed result-column name; and each data
row renders its record's field values followed by the case's returned value in
the result column — which is exactly the value read back from the result
cell. -/
theorem claim_C7 (w : WorldInput) (vr : List Record)
    (hv : filterValid (loadedRows w) = Except.ok vr)
    (hok : (main' w).1 = Except.ok ())
    (hall : ∀ j r, vr[j]? = some r → okCase (w.beh (j + 1)) r (j + 1) = true) :
    ∃ ws, (main' w).2.savedOutput = some ws ∧ ws.title = "Results" ∧
      (dataRowIndices ws).length = vr.length ∧
      (∀ r0 rest, vr = r0 :: rest →
        rowCells ws 1 = headerCells (r0.map (fun p => p.1) ++ [RESULT_COL]) 1) ∧
      (∀ j r, vr[j]? = some r →
        rowCells ws (j + 2) =
          renderRow (j + 2) r (sbcOf (w.beh (j + 1)) r (j + 1)) ∧
        getCell ws (j + 2, r.length + 1) =
          (sbcOf (w.beh (j + 1)) r (j + 1)).map CellVal.num ∧
        sbcOf (w.beh (j + 1)) r (j + 1) = (w.beh (j + 1)).readVal) := by
  rcases main'_ok_inv w hok with ⟨h1, h2, hne, r0, rest, hv2⟩
  have hvr : vr = r0 :: rest := by
    rw [hv] at hv2
    injection hv2
  have hvalid := filterValid_mem (loadedRows w) vr hv
  have hrun := main'_run w r0 rest h1 h2 hne hv2
  rw [← hvr] at hrun
  refine ⟨⟨"Results",
    headerCells (r0.map (fun p => p.1) ++ [RESULT_COL]) 1 ++ blocks w.beh vr 2⟩,
    by rw [hrun], rfl, ?_, ?_, ?_⟩
  · rw [dataRows_of_run w.beh vr _ hvalid,
      succRows_all_ok w.beh vr 2 (fun j r hj => by
        have hc := hall j r hj
        rwa [show j + 1 = 2 + j - 1 by omega] at hc)]
    simp
  · intro r0' rest' hvr'
    rw [hvr'] at hvr
    injection hvr with hh _
    rw [hh]
    exact rowCells_header w.beh vr (r0.map (fun p => p.1) ++ [RESULT_COL])
  · intro j r hj
    have hcase := hall j r hj
    have hrow := rowCells_of_run w.beh vr
      (r0.map (fun p => p.1) ++ [RESULT_COL]) j r hj
    rw [(okCase_result _ r (j + 1) hcase).1] at hrow
    refine ⟨hrow, ?_, (okCase_result _ r (j + 1) hcase).2⟩
    rw [getCell_eq_rowCells, hrow, renderRow_result_cell]
    cases sbcOf (w.beh (j + 1)) r (j + 1) <;> simp

/-- C7 witness: the single-valid-record world whose case succeeds saves one
data row whose result column holds the value read back, 42. -/
theorem claim_C7_witness :
    (filterValid (loadedRows W3) = Except.ok W3valid) ∧
    ((main' W3).1 = Except.ok ()) ∧
    (∃ ws, (main' W3).2.savedOutput = some ws ∧ ws.title = "Results" ∧
      (dataRowIndices ws).length = W3valid.length) := by
  have h1 : filterValid (loadedRows W3) = Except.ok W3valid := by decide
  have h2 : (main' W3).1 = Except.ok () := by decide
  have hall : ∀ j r, W3valid[j]? = some r →
      okCase (W3.beh (j + 1)) r (j + 1) = true := by
    intro j r hj
    match j with
    | 0 =>
      simp only [W3valid, List.getElem?_cons_zero, Option.some_inj] at hj
      subst hj
      decide
    | j + 1 => simp [W3valid] at hj
  rcases claim_C7 W3 W3valid h1 h2 hall with ⟨ws, hws, htitle, hcount, _⟩
  exact ⟨h1, h2, ws, hws, htitle, hcount⟩

/-- C8: the template is never modified in place: every save a case performs
targets the derived artifact path, which is never the template path; every
close carries `SaveChanges=False`; and whenever the document was opened
successfully, a close attempt (without saving) appears before the case
exits. -/
theorem claim_C8 (b : CaseBehavior) (record : Record) (i : Nat) :
    (∀ p ok, Event.saveAs p ok ∈ (process_design_file b record i).2 →
      p = artifactPath i) ∧
    artifactPath i ≠ DESIGN_FILE ∧
    (∀ sc ok, Event.closeDoc sc ok ∈ (process_design_file b record i).2 →
      sc = false) ∧
    (Event.openDoc DESIGN_FILE true ∈ (process_design_file b record i).2 →
      Event.closeDoc false b.closeOk ∈ (process_design_file b record i).2) := by
  refine ⟨fun p ok h => trace_saveAs b record i p ok h, artifactPath_ne_design i,
    fun sc ok h => trace_close_save_false b record i sc ok h, ?_⟩
  intro hopen
  rcases trace_openDoc b record i hopen with ⟨hd, ho⟩
  apply (trace_close_iff b record i).2
  rw [hd, ho]
  rfl

/-- C8 witness: the fully successful case saves only to the case-1 artifact
path and closes without saving. -/
theorem claim_C8_witness :
    artifactPath 1 ≠ DESIGN_FILE ∧
    Event.closeDoc false true ∈ (process_design_file okBeh recA 1).2 := by
  rcases claim_C8 okBeh recA 1 with ⟨_, hne, _, hclose⟩
  exact ⟨hne, hclose (by decide)⟩

/-- C9: a case whose result cell reads back as absent is still a success: the
driver returns `none` with the artifact path, the artifact save appears in the
trace, the record's row is written with its field values while the result cell
stays unset, the row still counts as a data row, and success is independent of
the value read — the batch applies no validation to the result. -/
theorem claim_C9 (w : WorldInput) (vr : List Record) (j : Nat) (r : Record)
    (hv : filterValid (loadedRows w) = Except.ok vr)
    (hok : (main' w).1 = Except.ok ())
    (hj : vr[j]? = some r)
    (hcase : okCase (w.beh (j + 1)) r (j + 1) = true)
    (hread : (w.beh (j + 1)).readVal = none) :
    sbcOf (w.beh (j + 1)) r (j + 1) = none ∧
    (process_design_file (w.beh (j + 1)) r (j + 1)).1 =
      Except.ok (none, artifactPath (j + 1)) ∧
    Event.saveAs (artifactPath (j + 1)) true ∈
      (process_design_file (w.beh (j + 1)) r (j + 1)).2 ∧
    (∃ ws, (main' w).2.savedOutput = some ws ∧
      rowCells ws (j + 2) = renderRow (j + 2) r none ∧
      (j + 2) ∈ dataRowIndices ws ∧
      getCell ws (j + 2, r.length + 1) = none) ∧
    (∀ (b : CaseBehavior) (x : Option Int),
      okCase { b with readVal := x } r (j + 1) = okCase b r (j + 1)) := by
  rcases main'_ok_inv w hok with ⟨h1, h2, hne, r0, rest, hv2⟩
  have hvr : vr = r0 :: rest := by
    rw [hv] at hv2
    injection hv2
  have hvalid := filterValid_mem (loadedRows w) vr hv
  have hrun := main'_run w r0 rest h1 h2 hne hv2
  rw [← hvr] at hrun
  have hsbc : sbcOf (w.beh (j + 1)) r (j + 1) = none := by
    rw [(okCase_result _ r (j + 1) hcase).2, hread]
  have hres := (okCase_result _ r (j + 1) hcase).1
  rw [hsbc] at hres
  refine ⟨hsbc, hres, trace_ok_saveAs _ r (j + 1) hcase, ?_,
    fun b x => okCase_readVal b r (j + 1) x⟩
  have hrow := rowCells_of_run w.beh vr
    (r0.map (fun p => p.1) ++ [RESULT_COL]) j r hj
  rw [hres] at hrow
  refine ⟨⟨"Results",
    headerCells (r0.map (fun p => p.1) ++ [RESULT_COL]) 1 ++ blocks w.beh vr 2⟩,
    by rw [hrun], hrow, ?_, ?_⟩
  · rw [dataRows_of_run w.beh vr _ hvalid]
    have hmem := succRows_mem_of_ok w.beh vr 2 j r hj (by
      rwa [show 2 + j - 1 = j + 1 by omega])
    rwa [show 2 + j = j + 2 by omega] at hmem
  · rw [getCell_eq_rowCells, hrow, renderRow_result_cell]
    rfl

/-- C9 witness: the single-record world whose result cell reads back absent
still succeeds, saves its artifact, and leaves the result cell unset. -/
theorem claim_C9_witness :
    (filterValid (loadedRows W9) = Except.ok W3valid) ∧
    ((main' W9).1 = Except.ok ()) ∧
    (W3valid[0]? = some recA) ∧
    (okCase (W9.beh 1) recA 1 = true) ∧
    ((W9.beh 1).readVal = none) ∧
    sbcOf (W9.beh 1) recA 1 = none ∧
    (process_design_file (W9.beh 1) recA 1).1 =
      Except.ok (none, artifactPath 1) := by
  have h1 : filterValid (loadedRows W9) = Except.ok W3valid := by decide
  have h2 : (main' W9).1 = Except.ok () := by decide
  have h3 : W3valid[0]? = some recA := by decide
  have h4 : okCase (W9.beh 1) recA 1 = true := by decide
  have h5 : (W9.beh 1).readVal = none := by decide
  have h := claim_C9 W9 W3valid 0 recA h1 h2 h3 h4 h5
  exact ⟨h1, h2, h3, h4, h5, h.1, h.2.1⟩

/-- C10 counterexample: with the cohesion column omitted but the first data
row's width absent, the short-circuiting check never looks cohesion up — the
record is treated as invalid and dropped without raising, and the run aborts
later (zero valid records, an index error), not with a key error during
validation of the first data row. -/
theorem claim_C10_counterexample :
    filterValid (loadedRows W10) = Except.ok [] ∧
    (main' W10).1 = Except.error Err.indexError ∧
    Err.indexError ≠ Err.keyError "cohesion" ∧
    "cohesion" ∉ W10.headers := by
  decide

/-- C10 (amended): if the header row omits a required column, the validity
filter raises that key's error — aborting the run during validation with no
output written and no case processed — for the first data row all of whose
required fields before the missing key are present; a row whose earlier
required value is absent instead short-circuits to invalid and is dropped
without any lookup of the missing key. -/
theorem claim_C10 (w : WorldInput) (r0 : Record) (rows2 : List Record)
    (k : String) (pre post : List String)
    (h1 : w.inputExists = true) (h2 : w.designExists = true)
    (hl : loadedRows w = r0 :: rows2)
    (hks : REQUIRED_KEYS = pre ++ k :: post)
    (hpre : ∀ k2 ∈ pre, ∃ p, r0.find? (fun q => q.1 == k2) = some p ∧
      p.2.isSome = true)
    (hmiss : r0.find? (fun q => q.1 == k) = none) :
    (main' w).1 = Except.error (Err.keyError k) ∧
    (main' w).2.savedOutput = none ∧ (main' w).2.caseTraces = [] := by
  have hrv : rowValid r0 = Except.error (Err.keyError k) := by
    unfold rowValid
    rw [hks]
    exact requiredAll_error r0 pre k post hpre hmiss
  have hfv : filterValid (r0 :: rows2) = Except.error (Err.keyError k) := by
    simp [filterValid, hrv]
  unfold loadedRows at hl
  have hmain : (main' w).1 = Except.error (Err.keyError k) := by
    simp [main', h1, h2, hl, hfv]
  exact ⟨hmain, main'_fatal_no_output w _ hmain⟩

/-- C10 witness: with the cohesion column omitted and the first row's width
and length present, the run aborts with the cohesion key error before any
processing. -/
theorem claim_C10_witness :
    (main' W10b).1 = Except.error (Err.keyError "cohesion") ∧
    (main' W10b).2.savedOutput = none ∧ (main' W10b).2.caseTraces = [] := by
  have hpre : ∀ k2 ∈ (["width", "length"] : List String),
      ∃ p, (([("width", some 1), ("length", some 2), ("phi", some 3)]) : Record).find?
        (fun q => q.1 == k2) = some p ∧ p.2.isSome = true := by
    intro k2 hk2
    rcases List.mem_cons.1 hk2 with rfl | hk2
    · exact ⟨("width", some 1), by decide, by decide⟩
    · rcases List.mem_cons.1 hk2 with rfl | hk2
      · exact ⟨("length", some 2), by decide, by decide⟩
      · simp at hk2
  exact claim_C10 W10b [("width", some 1), ("length", some 2), ("phi", some 3)] []
    "cohesion" ["width", "length"] ["phi"] (by decide) (by decide) (by decide)
    (by decide) hpre (by decide)
